import Mathlib

/-! terraform-provider-k3d: the `fixes` provider option

A shallow embedding of `internal/provider/provider.go`: the registry
`supportedFixes`, the `ValidateDiagFunc` of the `fixes` schema entry, the
function `configureFixes`, and the closure returned by `configure`.

Modelling conventions.

* A Go `map[string]interface{}` is an association list; the order of the list
  is the order in which one `range` over the map visits its entries (Go leaves
  that order unspecified, so every statement is made for an arbitrary list).
  A map has distinct keys: `distinctKeys`.
* The process-wide fix state `map[K3DFixEnv]bool` is only indexed, never
  ranged over, so it is a function from identifiers to optional booleans;
  a Go map value may also be `nil`, which is `none` of `Option FixState`.
* A Go panic is the `error` side of `Except Fault`.
* The slice `diags` is reassigned by every `append`, so it is a list. The slice `path`
  is never reassigned, so `append(path, step)` is modelled with what it does to the backing
  array of `path`: a `PathSlice` carries the spare capacity, and the attribute paths of the
  diagnostics are read once the loop is over.
* `cty.NormalizeString`, used by `cty.StringVal`, is a parameter: `Normalizer`.
-/

namespace K3dProvider

/-! ## Dynamic values -/

/-- A decoded value held in a Go `interface{}` as an element of a configuration map. -/
inductive Value where
  | bool (b : Bool)
  | str (s : String)
  | int (n : Int)
  | null
  deriving DecidableEq, Repr

/-- A Go `map[string]interface{}`, listed in the order one `range` visits it. -/
abbrev Config := List (String × Value)

/-- The keys of a configuration map, in `range` order. -/
def keys (m : Config) : List String := m.map Prod.fst

/-- Well-formedness of a Go map: no key occurs twice. -/
def distinctKeys (m : Config) : Prop := (keys m).Nodup

instance (m : Config) : Decidable (distinctKeys m) := by
  unfold distinctKeys; infer_instance

/-- The `interface{}` handed to the validator and returned by `GetOk`: a map or something else. -/
inductive Raw where
  | map (m : Config)
  | scalar (v : Value)
  deriving DecidableEq, Repr

/-- The run-time faults (panics) the modelled code can raise. -/
inductive Fault where
  | typeAssertion
  | nilMapWrite
  deriving DecidableEq, Repr

/-- The type assertion `v.(bool)`. -/
def assertBool : Value → Except Fault Bool
  | .bool b => .ok b
  | _ => .error .typeAssertion

/-- The type assertion `x.(map[string]interface{})`. -/
def assertMap : Raw → Except Fault Config
  | .map m => .ok m
  | .scalar _ => .error .typeAssertion

/-! ## cty paths and diagnostics -/

/-- The function `cty.NormalizeString`, which brings a string into Unicode normal form C.
It belongs to the cty library and is a parameter of the model; all that is assumed of it is
that it leaves ASCII strings as they are. -/
structure Normalizer where
  NormalizeString : String → String
  ascii : ∀ s : String, (∀ c ∈ s.data, c.toNat < 128) → NormalizeString s = s

/-- The cty values used as index keys; a string value holds a normalised string. -/
inductive CtyValue where
  | str (v : String)
  | num (n : Int)
  deriving DecidableEq, Repr

/-- The function `cty.StringVal`: the string value of `v`, normalised. -/
def StringVal (N : Normalizer) (v : String) : CtyValue := CtyValue.str (N.NormalizeString v)

/-- One step of a `cty.Path`. -/
inductive PathStep where
  | IndexStep (Key : CtyValue)
  | GetAttrStep (Name : String)
  deriving DecidableEq, Repr

/-- The elements of a `cty.Path`. -/
abbrev Path := List PathStep

/-- A `cty.Path` as a callee receives it: a slice, given by its elements and by the spare
capacity `cap(path) - len(path)` of its backing array. -/
structure PathSlice where
  steps : Path
  spare : Nat
  deriving DecidableEq, Repr

/-- The severities of `diag.Diagnostic`. -/
inductive Severity where
  | Error
  | Warning
  deriving DecidableEq, Repr

/-- A `diag.Diagnostic` as its reader finds it: the attribute path is given by its elements. -/
structure Diagnostic where
  Severity : Severity
  Summary : String
  Detail : String
  AttributePath : Path
  deriving DecidableEq, Repr

/-- The slice type `diag.Diagnostics`; the nil slice is the empty list. -/
abbrev Diagnostics := List Diagnostic

/-! ## The registry -/

/-- The Go type `fixes.K3DFixEnv`, a string type. -/
abbrev K3DFixEnv := String

/-- Modelled from the spec: the constant `fixes.EnvFixCgroupV2` of the k3d package `fixes`,
which is not part of this repository; the spec gives one identifier per fix name. -/
def EnvFixCgroupV2 : K3DFixEnv := "K3D_FIX_CGROUPV2"

/-- Modelled from the spec: the constant `fixes.EnvFixDNS` of the k3d package `fixes`. -/
def EnvFixDNS : K3DFixEnv := "K3D_FIX_DNS"

/-- Modelled from the spec: the constant `fixes.EnvFixMounts` of the k3d package `fixes`. -/
def EnvFixMounts : K3DFixEnv := "K3D_FIX_MOUNTS"

/-- The map literal `supportedFixes`, its entries in the order they are written. -/
def supportedFixes : List (String × K3DFixEnv) :=
  [("cgroupv2", EnvFixCgroupV2), ("dns", EnvFixDNS), ("mounts", EnvFixMounts)]

/-- An order in which `range supportedFixes` may visit the entries of the registry. -/
def rangeOrder (order : List (String × K3DFixEnv)) : Prop := order.Perm supportedFixes

/-- The comma-ok lookup `_, ok := supportedFixes[key]`, its `ok` part. -/
def supported (key : String) : Bool := (supportedFixes.lookup key).isSome

/-! ## The validator -/

/-- The slice that `append(path, step)` returns, `path` itself never being reassigned: with
spare capacity it is `path[0:len+1]` over the backing array of `path`, which every such
slice shares; otherwise it is a slice over a newly allocated array. -/
inductive PathRef where
  | shared
  | own (steps : Path)
  deriving DecidableEq, Repr

/-- A `diag.Diagnostic` while the loop runs: its attribute path is a slice. -/
structure LoopDiag where
  Severity : Severity
  Summary : String
  Detail : String
  AttributePath : PathRef
  deriving DecidableEq, Repr

/-- The call `append(path, step)`. `slot` is the element of the backing array of `path`
right behind the elements of `path` (`none` as long as the validator has not written it).
With spare capacity the step is stored in that slot; without, `path` is copied. -/
def appendStep (path : PathSlice) (step : PathStep) (slot : Option PathStep) :
    PathRef × Option PathStep :=
  if path.spare = 0 then (PathRef.own (path.steps ++ [step]), slot)
  else (PathRef.shared, some step)

/-- The loop `for key := range m` of the validator, threading the slice `diags` and the
slot behind `path`. -/
def validateLoop (N : Normalizer) (path : PathSlice) :
    Config → List LoopDiag → Option PathStep → List LoopDiag × Option PathStep
  | [], diags, slot => (diags, slot)
  | (key, _) :: rest, diags, slot =>
    match supportedFixes.lookup key with
    | some _ => validateLoop N path rest diags slot
    | none =>
      match appendStep path (PathStep.IndexStep (StringVal N key)) slot with
      | (ref, slot1) =>
        validateLoop N path rest
          (diags ++ [{ Severity := Severity.Error
                       Summary := "Invalid map key"
                       Detail := "Unsupported fix: " ++ key
                       AttributePath := ref }]) slot1

/-- The elements of a slice built by `appendStep`, read when the slot holds `slot`. -/
def readPath (path : PathSlice) (slot : Option PathStep) : PathRef → Path
  | PathRef.own steps => steps
  | PathRef.shared => path.steps ++ slot.toList

/-- A diagnostic of the loop as its reader finds it when the slot holds `slot`. -/
def readDiag (path : PathSlice) (slot : Option PathStep) (d : LoopDiag) : Diagnostic :=
  { Severity := d.Severity
    Summary := d.Summary
    Detail := d.Detail
    AttributePath := readPath path slot d.AttributePath }

/-- The `ValidateDiagFunc` of the schema entry `fixes`: the diagnostics it returns, as the
caller reads them on return. -/
def ValidateDiagFunc (N : Normalizer) (m : Raw) (path : PathSlice) :
    Except Fault Diagnostics :=
  match assertMap m with
  | .error e => .error e
  | .ok cfg =>
    match validateLoop N path cfg [] none with
    | (diags, slot) => .ok (diags.map (readDiag path slot))

/-- What a call of the validator has written into the slot behind `path`: `none` if it has
not written there. -/
def validateSlot (N : Normalizer) (m : Raw) (path : PathSlice) : Option PathStep :=
  match assertMap m with
  | .error _ => none
  | .ok cfg => (validateLoop N path cfg [] none).2

/-! ## Applying the configuration -/

/-- The contents of an allocated `map[K3DFixEnv]bool`. -/
abbrev FixState := K3DFixEnv → Option Bool

/-- The map `s` after the entry of `fix` has been set to `b`. -/
def setFix (s : FixState) (fix : K3DFixEnv) (b : Bool) : FixState :=
  fun id => if id = fix then some b else s id

/-- The assignment `k3dFixes[fix] = b`; writing to a nil map panics. -/
def mapAssign (k3dFixes : Option FixState) (fix : K3DFixEnv) (b : Bool) :
    Except Fault (Option FixState) :=
  match k3dFixes with
  | none => .error .nilMapWrite
  | some s => .ok (some (setFix s fix b))

/-- The comma-ok read `k3dFixes[id]`; a nil map has no entry. -/
def readFix (k3dFixes : Option FixState) (id : K3DFixEnv) : Option Bool :=
  match k3dFixes with
  | none => none
  | some s => s id

/-- A call that works on the fix state in place: what it returns, or the fault that
stopped it, and the map as the call leaves it. -/
structure Run (α : Type) where
  result : Except Fault α
  k3dFixes : Option FixState

/-- The loop `for name, fix := range supportedFixes` of `configureFixes`, over the
entries in the order `order`. The right-hand side `v.(bool)` is evaluated before the
assignment is carried out. -/
def configureLoop : List (String × K3DFixEnv) → Option FixState → Config → Run Unit
  | [], k3dFixes, _ => { result := .ok (), k3dFixes := k3dFixes }
  | (name, fix) :: rest, k3dFixes, fixesConfig =>
    match fixesConfig.lookup name with
    | none => configureLoop rest k3dFixes fixesConfig
    | some v =>
      match assertBool v with
      | .error e => { result := .error e, k3dFixes := k3dFixes }
      | .ok b =>
        match mapAssign k3dFixes fix b with
        | .error e => { result := .error e, k3dFixes := k3dFixes }
        | .ok k3dFixes1 => configureLoop rest k3dFixes1 fixesConfig

/-- The function `configureFixes`. `k3dFixes` is the map that `fixes.GetFixes` returns
(the package-level fix state of k3d, its error result being discarded); `order` is the
order in which the `range` visits `supportedFixes`. -/
def configureFixes (order : List (String × K3DFixEnv)) (k3dFixes : Option FixState)
    (fixesConfig : Config) : Run Unit :=
  configureLoop order k3dFixes fixesConfig

/-- The struct `apiClient`, which has no fields. -/
structure apiClient where
  deriving DecidableEq, Repr

/-- The part of `schema.ResourceData` the provider reads: `GetOk`. -/
structure ResourceData where
  GetOk : String → Raw × Bool

/-- The closure returned by `configure(version, p)`; it returns a client (a pointer, `none`
being nil) and diagnostics. -/
def configure (_version : String) (order : List (String × K3DFixEnv)) (d : ResourceData)
    (k3dFixes : Option FixState) : Run (Option apiClient × Diagnostics) :=
  match d.GetOk "fixes" with
  | (l, true) =>
    match assertMap l with
    | .error e => { result := .error e, k3dFixes := k3dFixes }
    | .ok c =>
      match configureFixes order k3dFixes c with
      | { result := .error e, k3dFixes := k3dFixes1 } =>
        { result := .error e, k3dFixes := k3dFixes1 }
      | { result := .ok _, k3dFixes := k3dFixes1 } =>
        { result := .ok (some {}, []), k3dFixes := k3dFixes1 }
  | (_, false) => { result := .ok (some {}, []), k3dFixes := k3dFixes }

/-- Whether a dynamic value is a Go `bool`. -/
def isBool : Value → Bool
  | .bool _ => true
  | _ => false

/-- The configurations all of whose values are booleans. -/
def boolValued (c : Config) : Prop := ∀ kv ∈ c, isBool kv.2 = true

instance (c : Config) : Decidable (boolValued c) := by
  unfold boolValued; infer_instance

instance (order : List (String × K3DFixEnv)) : Decidable (rangeOrder order) := by
  unfold rangeOrder; infer_instance

/-- The configurations whose values for the keys of `supportedFixes` are booleans. -/
def boolAtSupported (c : Config) : Prop :=
  ∀ kv ∈ c, kv.1 ∈ supportedFixes.map Prod.fst → isBool kv.2 = true

instance (c : Config) : Decidable (boolAtSupported c) := by
  unfold boolAtSupported; infer_instance

/-- The configuration `c` restricted to the keys of `supportedFixes`. -/
def restrictSupported (c : Config) : Config :=
  c.filter (fun kv => decide (kv.1 ∈ supportedFixes.map Prod.fst))

/-- The configuration `c1` overridden by `c2`: the entries of `c2`, and those of `c1` whose
key `c2` does not have. -/
def override (c1 c2 : Config) : Config :=
  c2 ++ c1.filter (fun kv => decide (kv.1 ∉ keys c2))

/-- A resource data in which `fixes` is set to the map `c` and nothing else is set. -/
def fixesSet (c : Config) : ResourceData :=
  { GetOk := fun key =>
      if key = "fixes" then (Raw.map c, true) else (Raw.scalar Value.null, false) }

/-- Go substring test `strings.Contains s sub`. -/
def includes (s sub : String) : Prop := sub.data <:+: s.data

instance (s sub : String) : Decidable (includes s sub) := by
  unfold includes; infer_instance



/-- The keys of a configuration map that are not keys of `supportedFixes`, in `range` order. -/
def unsupportedKeys (m : Config) : List String :=
  (keys m).filter (fun k => decide (k ∉ supportedFixes.map Prod.fst))

/-- The severity, summary and detail of a diagnostic. -/
def message (d : Diagnostic) : Severity × String × String := (d.Severity, d.Summary, d.Detail)

/-- A normaliser that leaves every string as it is; it agrees with normal form C on the
strings that are in that form already, such as ASCII strings. -/
def verbatim : Normalizer :=
  { NormalizeString := fun s => s
    ascii := fun _ _ => rfl }

/-- What the schema of `fixes` (`TypeMap` with `Elem` of `TypeBool`) makes of the value that
`GetOk` delivers for it: a map whose values are booleans. -/
def fixesTyped (d : ResourceData) (c : Config) : Prop :=
  (d.GetOk "fixes").1 = Raw.map c ∧ boolValued c

/-- The attribute path that the reader finds in the diagnostic of the unsupported key `k`,
`U` being the unsupported keys in the order of the visit: the step of `k` behind a path
without spare capacity, else the step of the key of `U` visited last. -/
def reportedPath (N : Normalizer) (p : PathSlice) (U : List String) (k : String) : Path :=
  if p.spare = 0 then p.steps ++ [PathStep.IndexStep (StringVal N k)]
  else p.steps ++ (U.getLast?.map (fun j => PathStep.IndexStep (StringVal N j))).toList

/-- The diagnostic that the reader finds for the unsupported key `k`. -/
def reported (N : Normalizer) (p : PathSlice) (U : List String) (k : String) : Diagnostic :=
  { Severity := Severity.Error
    Summary := "Invalid map key"
    Detail := "Unsupported fix: " ++ k
    AttributePath := reportedPath N p U k }

/-! ## Facts about the registry -/

theorem lookup_eq_none_iff_not_key {β : Type} (l : List (String × β)) (k : String) :
    l.lookup k = none ↔ k ∉ l.map Prod.fst := by
  induction l with
  | nil => simp
  | cons hd tl ih =>
    obtain ⟨a, b⟩ := hd
    by_cases h : k = a
    · subst h; simp [List.lookup]
    · have hb : (k == a) = false := by simpa using h
      simp only [List.lookup, hb, ih, List.map_cons, List.mem_cons, h, false_or]

theorem lookup_isSome_iff_key {β : Type} (l : List (String × β)) (k : String) :
    (l.lookup k).isSome = true ↔ k ∈ l.map Prod.fst := by
  rw [← not_iff_not, ← lookup_eq_none_iff_not_key]
  cases l.lookup k <;> simp


/-! ## What the loop of the validator yields -/

theorem mem_supported_names (k : String) :
    k ∈ supportedFixes.map Prod.fst ↔ k = "cgroupv2" ∨ k = "dns" ∨ k = "mounts" := by
  simp [supportedFixes]

theorem unsupported_detail_injective (a b : String)
    (h : "Unsupported fix: " ++ a = "Unsupported fix: " ++ b) : a = b := by
  have h1 := congrArg String.data h
  simp only [String.data_append] at h1
  exact String.ext (List.append_cancel_left h1)

theorem foldl_last_eq {α β : Type} (f : α → β) (l : List α) (s : Option β) :
    l.foldl (fun _ k => some (f k)) s = (l.getLast?.map f).or s := by
  induction l generalizing s with
  | nil => simp
  | cons a tl ih =>
    rw [List.foldl_cons, ih, List.getLast?_cons]
    cases tl.getLast? <;> simp

/-- The slice given to the diagnostic of an unsupported key. -/
theorem appendStep_fst (path : PathSlice) (step : PathStep) (slot : Option PathStep) :
    (appendStep path step slot).1 =
      if path.spare = 0 then PathRef.own (path.steps ++ [step]) else PathRef.shared := by
  unfold appendStep
  split <;> rfl

theorem appendStep_snd (path : PathSlice) (step : PathStep) (slot : Option PathStep) :
    (appendStep path step slot).2 = if path.spare = 0 then slot else some step := by
  unfold appendStep
  split <;> rfl

/-- The loop in closed form: one diagnostic per unsupported key, in the order of the visit,
and in the slot the step of the unsupported key visited last. -/
theorem validateLoop_eq (N : Normalizer) (path : PathSlice) (m : Config)
    (diags : List LoopDiag) (slot : Option PathStep) :
    validateLoop N path m diags slot =
      (diags ++ (unsupportedKeys m).map (fun k =>
          { Severity := Severity.Error, Summary := "Invalid map key",
            Detail := "Unsupported fix: " ++ k,
            AttributePath :=
              if path.spare = 0
              then PathRef.own (path.steps ++ [PathStep.IndexStep (StringVal N k)])
              else PathRef.shared }),
       if path.spare = 0 then slot
       else (unsupportedKeys m).foldl
         (fun _ k => some (PathStep.IndexStep (StringVal N k))) slot) := by
  induction m generalizing diags slot with
  | nil => simp [validateLoop, unsupportedKeys, keys]
  | cons hd tl ih =>
    obtain ⟨key, v⟩ := hd
    unfold validateLoop
    cases h : supportedFixes.lookup key with
    | none =>
      have hk : key ∉ supportedFixes.map Prod.fst := (lookup_eq_none_iff_not_key _ _).1 h
      have hu : unsupportedKeys ((key, v) :: tl) = key :: unsupportedKeys tl := by
        simp only [unsupportedKeys, keys, List.map_cons, List.filter_cons, hk,
          not_false_eq_true, decide_True, if_true]
      have hs := appendStep_snd path (PathStep.IndexStep (StringVal N key)) slot
      have hf := appendStep_fst path (PathStep.IndexStep (StringVal N key)) slot
      cases ha : appendStep path (PathStep.IndexStep (StringVal N key)) slot with
      | mk ref slot1 =>
        rw [ha] at hs hf
        simp only at hs hf
        subst hs hf
        simp only [ih, hu, List.map_cons, List.append_assoc, List.singleton_append,
          List.foldl_cons]
        by_cases hz : path.spare = 0 <;> simp [hz]
    | some fix =>
      have hk : key ∈ supportedFixes.map Prod.fst :=
        (lookup_isSome_iff_key _ _).1 (by simp [h])
      have hu : unsupportedKeys ((key, v) :: tl) = unsupportedKeys tl := by
        simp only [unsupportedKeys, keys, List.map_cons, List.filter_cons, hk,
          not_true_eq_false, decide_False]
        simp
      simp only [ih, hu]

/-- The validator in closed form. -/
theorem validate_ok (N : Normalizer) (m : Config) (p : PathSlice) :
    ValidateDiagFunc N (Raw.map m) p =
      Except.ok ((unsupportedKeys m).map (reported N p (unsupportedKeys m))) := by
  unfold ValidateDiagFunc
  simp only [assertMap]
  rw [validateLoop_eq]
  simp only [List.nil_append, List.map_map]
  congr 1
  apply List.map_congr_left
  intro k _
  by_cases hz : p.spare = 0
  · simp [readDiag, readPath, reported, reportedPath, hz]
  · simp [readDiag, readPath, reported, reportedPath, hz, foldl_last_eq]

theorem validateSlot_eq (N : Normalizer) (m : Config) (p : PathSlice) :
    validateSlot N (Raw.map m) p =
      if p.spare = 0 then none
      else (unsupportedKeys m).getLast?.map (fun j => PathStep.IndexStep (StringVal N j)) := by
  unfold validateSlot
  simp only [assertMap]
  rw [validateLoop_eq]
  by_cases hz : p.spare = 0
  · simp [hz]
  · simp [hz, foldl_last_eq]

theorem reported_injective (N : Normalizer) (p : PathSlice) (U : List String) :
    Function.Injective (reported N p U) := by
  intro a b h
  have h1 : (reported N p U a).Detail = (reported N p U b).Detail := by rw [h]
  exact unsupported_detail_injective a b h1

theorem reportedPath_exact (N : Normalizer) (p : PathSlice) (U : List String) (k : String)
    (h : p.spare = 0 ∨ U.getLast? = some k) :
    reportedPath N p U k = p.steps ++ [PathStep.IndexStep (StringVal N k)] := by
  unfold reportedPath
  by_cases hz : p.spare = 0
  · simp [hz]
  · rcases h with h | h
    · exact absurd h hz
    · simp [hz, h]

theorem mem_unsupportedKeys (m : Config) (k : String) :
    k ∈ unsupportedKeys m ↔ k ∈ keys m ∧ k ∉ supportedFixes.map Prod.fst := by
  simp [unsupportedKeys]

theorem unsupportedKeys_nodup (m : Config) (hm : distinctKeys m) :
    (unsupportedKeys m).Nodup := hm.filter _

theorem unsupportedKeys_perm (m1 m2 : Config) (h : m1.Perm m2) :
    (unsupportedKeys m1).Perm (unsupportedKeys m2) :=
  List.Perm.filter _ (List.Perm.map Prod.fst h)

theorem countP_eq_one_of_nodup {α : Type} [DecidableEq α] (l : List α) (q : α → Bool) (a : α)
    (hnd : l.Nodup) (ha : a ∈ l) (hq : ∀ x ∈ l, q x = true ↔ x = a) : l.countP q = 1 := by
  have h1 : l.countP q = l.countP (fun x => x == a) := by
    apply List.countP_congr
    intro x hx
    simp [hq x hx]
  rw [h1]
  exact List.count_eq_one_of_mem hnd ha

theorem eq_of_perm_of_length_le_one {α : Type} (l1 l2 : List α) (h : l1.Perm l2)
    (hl : l1.length ≤ 1) : l1 = l2 := by
  cases l1 with
  | nil => exact h.nil_eq
  | cons a tl =>
    cases tl with
    | nil => exact (List.perm_singleton.1 h.symm).symm
    | cons b tl2 => simp at hl

theorem includes_unsupported_detail (k : String) : includes ("Unsupported fix: " ++ k) k := by
  unfold includes
  exact ⟨"Unsupported fix: ".data, [], by simp [String.data_append]⟩

/-- With a single unsupported key the diagnostic carries the index step of that key,
whatever the capacity of the path. -/
theorem validate_single (N : Normalizer) (m : Config) (p : PathSlice) (k : String)
    (hu : unsupportedKeys m = [k]) :
    ValidateDiagFunc N (Raw.map m) p =
      Except.ok [{ Severity := Severity.Error, Summary := "Invalid map key",
                   Detail := "Unsupported fix: " ++ k,
                   AttributePath := p.steps ++ [PathStep.IndexStep (StringVal N k)] }] := by
  rw [validate_ok, hu]
  simp only [List.map_cons, List.map_nil, reported]
  rw [reportedPath_exact N p [k] k (Or.inr rfl)]

/-! ## The validator reports the unsupported keys -/

/-- C1, as stated, fails: on a path with spare capacity every `append(path, step)` writes
the same slot of the backing array of `path`, so that with the unsupported keys "a" and "b",
visited in this order, both diagnostics end in the index step of "b"; none has the path
extended by the index step of "a". -/
theorem validate_shared_path_counterexample :
    distinctKeys [("a", Value.bool true), ("b", Value.bool true)] ∧
    "a" ∈ keys [("a", Value.bool true), ("b", Value.bool true)] ∧
    "a" ∉ supportedFixes.map Prod.fst ∧
    ∀ N : Normalizer, ∃ ds,
      ValidateDiagFunc N (Raw.map [("a", Value.bool true), ("b", Value.bool true)])
        { steps := [PathStep.GetAttrStep "fixes"], spare := 1 } = Except.ok ds ∧
      ds = [{ Severity := Severity.Error, Summary := "Invalid map key",
              Detail := "Unsupported fix: a",
              AttributePath := [PathStep.GetAttrStep "fixes",
                PathStep.IndexStep (StringVal N "b")] },
            { Severity := Severity.Error, Summary := "Invalid map key",
              Detail := "Unsupported fix: b",
              AttributePath := [PathStep.GetAttrStep "fixes",
                PathStep.IndexStep (StringVal N "b")] }] ∧
      ds.count { Severity := Severity.Error, Summary := "Invalid map key",
                 Detail := "Unsupported fix: a",
                 AttributePath := [PathStep.GetAttrStep "fixes",
                   PathStep.IndexStep (StringVal N "a")] } = 0 := by
  refine ⟨by decide, by decide, by decide, ?_⟩
  intro N
  have ha : N.NormalizeString "a" = "a" := N.ascii "a" (by decide)
  have hb : N.NormalizeString "b" = "b" := N.ascii "b" (by decide)
  refine ⟨_, rfl, rfl, ?_⟩
  rw [List.count_eq_zero]
  simp [StringVal, ha, hb, readDiag, readPath]

/-- C1, amended: for a configuration map `m` and a path `p` the validator returns, up to
order, one diagnostic per key of `m` that is not a key of `supportedFixes`, of severity
Error, summary "Invalid map key" and detail "Unsupported fix: " followed by the key; each
occurs exactly once, none is produced for a supported key, and there are as many diagnostics
as unsupported keys. The attribute path of the diagnostic of a key is `p` extended by the
index step of that key when `p` has no spare capacity, or when the key is the unsupported
key visited last. -/
theorem validate_reports_each_unsupported_key (N : Normalizer) (m : Config) (p : PathSlice)
    (hm : distinctKeys m) :
    ∃ ds, ValidateDiagFunc N (Raw.map m) p = Except.ok ds ∧
      (ds.map message).Perm ((unsupportedKeys m).map
        (fun k => (Severity.Error, "Invalid map key", "Unsupported fix: " ++ k))) ∧
      (∀ k ∈ keys m, k ∉ supportedFixes.map Prod.fst →
        ds.countP (fun d => decide (d.Detail = "Unsupported fix: " ++ k)) = 1) ∧
      (∀ d ∈ ds, ∀ k ∈ supportedFixes.map Prod.fst, d.Detail ≠ "Unsupported fix: " ++ k) ∧
      ds.length = (unsupportedKeys m).length ∧
      (∀ d ∈ ds, ∀ k, d.Detail = "Unsupported fix: " ++ k →
        p.spare = 0 ∨ (unsupportedKeys m).getLast? = some k →
        d.AttributePath = p.steps ++ [PathStep.IndexStep (StringVal N k)]) ∧
      (p.spare = 0 → ds.Perm ((unsupportedKeys m).map (fun k =>
        { Severity := Severity.Error, Summary := "Invalid map key",
          Detail := "Unsupported fix: " ++ k,
          AttributePath := p.steps ++ [PathStep.IndexStep (StringVal N k)] }))) := by
  refine ⟨_, validate_ok N m p, ?_, ?_, ?_, ?_, ?_, ?_⟩
  · rw [List.map_map]
    exact List.Perm.refl _
  · intro k hk hns
    rw [List.countP_map]
    apply countP_eq_one_of_nodup _ _ k (unsupportedKeys_nodup m hm)
      ((mem_unsupportedKeys m k).2 ⟨hk, hns⟩)
    intro x _
    simp only [Function.comp, reported, decide_eq_true_eq]
    exact ⟨unsupported_detail_injective _ _, fun h => by rw [h]⟩
  · intro d hd k hk hdet
    obtain ⟨k2, hk2, rfl⟩ := List.mem_map.1 hd
    have h2 : k2 = k := unsupported_detail_injective _ _ hdet
    exact ((mem_unsupportedKeys m k2).1 hk2).2 (h2 ▸ hk)
  · simp
  · intro d hd k hdet hp
    obtain ⟨k2, _, rfl⟩ := List.mem_map.1 hd
    have h2 : k2 = k := unsupported_detail_injective _ _ hdet
    subst h2
    exact reportedPath_exact N p _ k2 hp
  · intro hz
    have hmap : (unsupportedKeys m).map (reported N p (unsupportedKeys m)) =
        (unsupportedKeys m).map (fun k =>
          { Severity := Severity.Error, Summary := "Invalid map key",
            Detail := "Unsupported fix: " ++ k,
            AttributePath := p.steps ++ [PathStep.IndexStep (StringVal N k)] }) := by
      apply List.map_congr_left
      intro k _
      simp [reported, reportedPath, hz]
    rw [hmap]

/-- C1, amended, at an instance: a path without spare capacity, one supported key and two
unsupported ones. -/
theorem validate_reports_each_unsupported_key_witness :
    distinctKeys [("cgroupv2", Value.bool true), ("bogus", Value.bool false),
      ("other", Value.bool true)] ∧
    ∃ ds, ValidateDiagFunc verbatim
        (Raw.map [("cgroupv2", Value.bool true), ("bogus", Value.bool false),
          ("other", Value.bool true)])
        { steps := [PathStep.GetAttrStep "fixes"], spare := 0 } = Except.ok ds ∧
      ds.countP (fun d => decide (d.Detail = "Unsupported fix: " ++ "bogus")) = 1 ∧
      ds.length = 2 ∧
      ds.Perm [{ Severity := Severity.Error, Summary := "Invalid map key",
                 Detail := "Unsupported fix: bogus",
                 AttributePath := [PathStep.GetAttrStep "fixes",
                   PathStep.IndexStep (CtyValue.str "bogus")] },
               { Severity := Severity.Error, Summary := "Invalid map key",
                 Detail := "Unsupported fix: other",
                 AttributePath := [PathStep.GetAttrStep "fixes",
                   PathStep.IndexStep (CtyValue.str "other")] }] := by
  refine ⟨by decide, ?_⟩
  obtain ⟨ds, h1, _, h3, _, h5, _, h7⟩ := validate_reports_each_unsupported_key verbatim
    [("cgroupv2", Value.bool true), ("bogus", Value.bool false), ("other", Value.bool true)]
    { steps := [PathStep.GetAttrStep "fixes"], spare := 0 } (by decide)
  refine ⟨ds, h1, h3 "bogus" (by decide) (by decide), ?_, h7 rfl⟩
  rw [h5]
  decide

theorem unsupportedKeys_eq_nil_iff (m : Config) :
    unsupportedKeys m = [] ↔ ∀ k ∈ keys m, k ∈ supportedFixes.map Prod.fst := by
  simp only [unsupportedKeys, List.filter_eq_nil_iff, decide_eq_true_eq, not_not]

/-- C2: the validator returns the empty list of diagnostics exactly when every key of the
configuration is one of "cgroupv2", "dns", "mounts", the keys of `supportedFixes`; the
configuration with these three keys and the empty configuration give no diagnostic. -/
theorem validate_empty_iff_all_supported (N : Normalizer) (m : Config) (p : PathSlice) :
    (ValidateDiagFunc N (Raw.map m) p = Except.ok [] ↔
      ∀ k ∈ keys m, k = "cgroupv2" ∨ k = "dns" ∨ k = "mounts") ∧
    (∀ k, k ∈ supportedFixes.map Prod.fst ↔ k = "cgroupv2" ∨ k = "dns" ∨ k = "mounts") ∧
    (∀ v1 v2 v3 : Value,
      ValidateDiagFunc N (Raw.map [("cgroupv2", v1), ("dns", v2), ("mounts", v3)]) p =
        Except.ok []) ∧
    ValidateDiagFunc N (Raw.map []) p = Except.ok [] := by
  have key : ∀ c : Config, ValidateDiagFunc N (Raw.map c) p = Except.ok [] ↔
      ∀ k ∈ keys c, k = "cgroupv2" ∨ k = "dns" ∨ k = "mounts" := by
    intro c
    rw [validate_ok]
    constructor
    · intro h k hk
      have h1 : (unsupportedKeys c).map (reported N p (unsupportedKeys c)) = [] := by
        injection h
      have h2 : unsupportedKeys c = [] := List.map_eq_nil_iff.1 h1
      exact (mem_supported_names k).1 ((unsupportedKeys_eq_nil_iff c).1 h2 k hk)
    · intro h
      have h2 : unsupportedKeys c = [] :=
        (unsupportedKeys_eq_nil_iff c).2 (fun k hk => (mem_supported_names k).2 (h k hk))
      rw [h2]
      rfl
  refine ⟨key m, mem_supported_names, ?_, ?_⟩
  · intro v1 v2 v3
    refine (key _).2 ?_
    intro k hk
    simpa [keys] using hk
  · exact (key _).2 (by intro k hk; simp [keys] at hk)

/-! ## One diagnostic per unsupported key, and substrings -/

/-- C3, as stated, fails: with the unsupported keys "bog" and "bogus" two diagnostics have a
detail that includes "bog", and with the unsupported keys "" and "bogus" two diagnostics have
a detail that includes the empty key, whatever the path. -/
theorem validate_detail_includes_counterexample :
    (distinctKeys [("bog", Value.bool true), ("bogus", Value.bool true)] ∧
      "bog" ∈ keys [("bog", Value.bool true), ("bogus", Value.bool true)] ∧
      "bog" ∉ supportedFixes.map Prod.fst ∧
      ∀ (N : Normalizer) (p : PathSlice), ∃ ds,
        ValidateDiagFunc N (Raw.map [("bog", Value.bool true), ("bogus", Value.bool true)]) p
          = Except.ok ds ∧
        ds.countP (fun d => decide (includes d.Detail "bog")) = 2) ∧
    (distinctKeys [("", Value.bool true), ("bogus", Value.bool true)] ∧
      "" ∈ keys [("", Value.bool true), ("bogus", Value.bool true)] ∧
      "" ∉ supportedFixes.map Prod.fst ∧
      ∀ (N : Normalizer) (p : PathSlice), ∃ ds,
        ValidateDiagFunc N (Raw.map [("", Value.bool true), ("bogus", Value.bool true)]) p
          = Except.ok ds ∧
        ds.countP (fun d => decide (includes d.Detail "")) = 2) := by
  refine ⟨⟨by decide, by decide, by decide, ?_⟩, ⟨by decide, by decide, by decide, ?_⟩⟩
  · intro N p
    refine ⟨_, validate_ok N _ p, ?_⟩
    have hu : unsupportedKeys [("bog", Value.bool true), ("bogus", Value.bool true)] =
        ["bog", "bogus"] := by decide
    rw [hu, List.countP_map]
    show List.countP (fun k => decide (includes ("Unsupported fix: " ++ k) "bog"))
      ["bog", "bogus"] = 2
    decide
  · intro N p
    refine ⟨_, validate_ok N _ p, ?_⟩
    have hu : unsupportedKeys [("", Value.bool true), ("bogus", Value.bool true)] =
        ["", "bogus"] := by decide
    rw [hu, List.countP_map]
    show List.countP (fun k => decide (includes ("Unsupported fix: " ++ k) ""))
      ["", "bogus"] = 2
    decide

/-- C3, amended: for a configuration map `m`, a path `p` and a key `k` of `m` that is not a
key of `supportedFixes`, the validator returns exactly one diagnostic whose detail is
"Unsupported fix: " followed by `k`; that detail includes `k`, and the attribute path of
that diagnostic is `p` extended by the index step of `k` when `p` has no spare capacity, or
when `k` is the unsupported key visited last. -/
theorem validate_one_diagnostic_per_unsupported_key (N : Normalizer) (m : Config)
    (p : PathSlice) (k : String)
    (hm : distinctKeys m) (hk : k ∈ keys m) (hns : k ∉ supportedFixes.map Prod.fst) :
    ∃ ds, ValidateDiagFunc N (Raw.map m) p = Except.ok ds ∧
      ds.countP (fun d => decide (d.Detail = "Unsupported fix: " ++ k)) = 1 ∧
      ∀ d ∈ ds, d.Detail = "Unsupported fix: " ++ k →
        includes d.Detail k ∧
        (p.spare = 0 ∨ (unsupportedKeys m).getLast? = some k →
          d.AttributePath = p.steps ++ [PathStep.IndexStep (StringVal N k)]) := by
  refine ⟨_, validate_ok N m p, ?_, ?_⟩
  · rw [List.countP_map]
    apply countP_eq_one_of_nodup _ _ k (unsupportedKeys_nodup m hm)
      ((mem_unsupportedKeys m k).2 ⟨hk, hns⟩)
    intro x _
    simp only [Function.comp, reported, decide_eq_true_eq]
    exact ⟨unsupported_detail_injective _ _, fun h => by rw [h]⟩
  · intro d hd hdet
    obtain ⟨k2, _, rfl⟩ := List.mem_map.1 hd
    have h2 : k2 = k := unsupported_detail_injective _ _ hdet
    subst h2
    exact ⟨includes_unsupported_detail k2, reportedPath_exact N p _ k2⟩

/-- C3, amended, at an instance: the keys "bog" and "bogus", neither supported, on a path
with spare capacity; "bogus" is visited last. -/
theorem validate_one_diagnostic_per_unsupported_key_witness :
    ∃ ds, ValidateDiagFunc verbatim
        (Raw.map [("bog", Value.bool true), ("bogus", Value.bool true)])
        { steps := [], spare := 2 } = Except.ok ds ∧
      ds.countP (fun d => decide (d.Detail = "Unsupported fix: " ++ "bogus")) = 1 ∧
      ∀ d ∈ ds, d.Detail = "Unsupported fix: " ++ "bogus" →
        includes d.Detail "bogus" ∧
        d.AttributePath = [PathStep.IndexStep (CtyValue.str "bogus")] := by
  obtain ⟨ds, h1, h2, h3⟩ := validate_one_diagnostic_per_unsupported_key verbatim
    [("bog", Value.bool true), ("bogus", Value.bool true)] { steps := [], spare := 2 } "bogus"
    (by decide) (by decide) (by decide)
  refine ⟨ds, h1, h2, ?_⟩
  intro d hd hdet
  exact ⟨(h3 d hd hdet).1, (h3 d hd hdet).2 (Or.inr (by decide))⟩

/-! ## The loop of `configureFixes` -/

theorem mem_of_lookup_eq_some {β : Type} (l : List (String × β)) (k : String) (v : β)
    (h : l.lookup k = some v) : (k, v) ∈ l := by
  induction l with
  | nil => simp at h
  | cons hd tl ih =>
    obtain ⟨a, b⟩ := hd
    by_cases hka : k = a
    · subst hka
      simp only [List.lookup, beq_self_eq_true, Option.some.injEq] at h
      subst h
      exact List.mem_cons_self _ _
    · have hb : (k == a) = false := by simpa using hka
      simp only [List.lookup, hb] at h
      exact List.mem_cons_of_mem _ (ih h)

theorem boolValued_lookup (c : Config) (hc : boolValued c) (n : String) (v : Value)
    (h : c.lookup n = some v) : ∃ b, v = Value.bool b := by
  have h1 : isBool v = true := hc (n, v) (mem_of_lookup_eq_some c n v h)
  cases v with
  | bool b => exact ⟨b, rfl⟩
  | str x => simp [isBool] at h1
  | int x => simp [isBool] at h1
  | null => simp [isBool] at h1

theorem rangeOrder_mem (order : List (String × K3DFixEnv)) (ho : rangeOrder order)
    (e : String × K3DFixEnv) : e ∈ order ↔ e ∈ supportedFixes :=
  List.Perm.mem_iff ho

theorem rangeOrder_nodup_ids (order : List (String × K3DFixEnv)) (ho : rangeOrder order) :
    (order.map Prod.snd).Nodup := by
  have h : (order.map Prod.snd).Perm (supportedFixes.map Prod.snd) := List.Perm.map _ ho
  exact (List.Perm.nodup_iff h).2 (by decide)

/-- The loop reads the configuration only at the names of the registry. -/
theorem configureLoop_congr (order : List (String × K3DFixEnv)) (k : Option FixState)
    (c1 c2 : Config) (h : ∀ e ∈ order, c1.lookup e.1 = c2.lookup e.1) :
    configureLoop order k c1 = configureLoop order k c2 := by
  induction order generalizing k with
  | nil => rfl
  | cons hd tl ih =>
    obtain ⟨name, fix⟩ := hd
    have h1 : c1.lookup name = c2.lookup name := h (name, fix) (List.mem_cons_self _ _)
    have h2 : ∀ e ∈ tl, c1.lookup e.1 = c2.lookup e.1 :=
      fun e he => h e (List.mem_cons_of_mem _ he)
    unfold configureLoop
    rw [h1]
    cases c2.lookup name with
    | none => exact ih k h2
    | some v =>
      dsimp only
      cases assertBool v with
      | error e => rfl
      | ok b =>
        dsimp only
        cases mapAssign k fix b with
        | error e => rfl
        | ok k1 => exact ih k1 h2

/-- On an allocated map the loop leaves an allocated map, which differs from the one it
started on by writes of supplied booleans at identifiers of visited entries only. -/
theorem configureLoop_state (order : List (String × K3DFixEnv)) (s : FixState) (c : Config) :
    ∃ s1, (configureLoop order (some s) c).k3dFixes = some s1 ∧
      (∀ id, (∀ e ∈ order, e.2 = id → c.lookup e.1 = none) → s1 id = s id) ∧
      ∃ ws : List (K3DFixEnv × Bool),
        s1 = ws.foldl (fun st w => setFix st w.1 w.2) s ∧
        ∀ w ∈ ws, ∃ e ∈ order, e.2 = w.1 ∧ c.lookup e.1 = some (Value.bool w.2) := by
  induction order generalizing s with
  | nil => exact ⟨s, rfl, fun _ _ => rfl, [], rfl, by simp⟩
  | cons hd tl ih =>
    obtain ⟨name, fix⟩ := hd
    unfold configureLoop
    cases hl : c.lookup name with
    | none =>
      obtain ⟨s1, h1, h2, ws, h3, h4⟩ := ih s
      refine ⟨s1, h1, fun id hid => h2 id (fun e he => hid e (List.mem_cons_of_mem _ he)),
        ws, h3, ?_⟩
      intro w hw
      obtain ⟨e, he, hew⟩ := h4 w hw
      exact ⟨e, List.mem_cons_of_mem _ he, hew⟩
    | some v =>
      cases v with
      | bool b =>
        obtain ⟨s1, h1, h2, ws, h3, h4⟩ := ih (setFix s fix b)
        refine ⟨s1, h1, ?_, (fix, b) :: ws, h3, ?_⟩
        · intro id hid
          have hne : id ≠ fix := by
            intro h
            have := hid (name, fix) (List.mem_cons_self _ _) h.symm
            rw [hl] at this
            exact Option.noConfusion this
          rw [h2 id (fun e he => hid e (List.mem_cons_of_mem _ he))]
          simp [setFix, hne]
        · intro w hw
          rcases List.mem_cons.1 hw with rfl | hw
          · exact ⟨(name, fix), List.mem_cons_self _ _, rfl, hl⟩
          · obtain ⟨e, he, hew⟩ := h4 w hw
            exact ⟨e, List.mem_cons_of_mem _ he, hew⟩
      | str x => exact ⟨s, rfl, fun _ _ => rfl, [], rfl, by simp⟩
      | int x => exact ⟨s, rfl, fun _ _ => rfl, [], rfl, by simp⟩
      | null => exact ⟨s, rfl, fun _ _ => rfl, [], rfl, by simp⟩

/-- When every value supplied for a visited name is a boolean, the loop on an allocated map
ends without a fault, and, the identifiers of the visited entries being distinct, each
supplied boolean is the final entry of its identifier. -/
theorem configureLoop_bool (order : List (String × K3DFixEnv)) (s : FixState) (c : Config)
    (hb : ∀ e ∈ order, ∀ v, c.lookup e.1 = some v → ∃ b, v = Value.bool b) :
    (configureLoop order (some s) c).result = Except.ok () ∧
    ((order.map Prod.snd).Nodup → ∀ s1, (configureLoop order (some s) c).k3dFixes = some s1 →
      ∀ e ∈ order, ∀ b, c.lookup e.1 = some (Value.bool b) → s1 e.2 = some b) := by
  induction order generalizing s with
  | nil => exact ⟨rfl, fun _ _ _ e he => absurd he (List.not_mem_nil e)⟩
  | cons hd tl ih =>
    obtain ⟨name, fix⟩ := hd
    have hb2 : ∀ e ∈ tl, ∀ v, c.lookup e.1 = some v → ∃ b, v = Value.bool b :=
      fun e he => hb e (List.mem_cons_of_mem _ he)
    unfold configureLoop
    cases hl : c.lookup name with
    | none =>
      refine ⟨(ih s hb2).1, ?_⟩
      intro hnd s1 hs1 e he b hlb
      have hnd2 : (tl.map Prod.snd).Nodup := (List.nodup_cons.1 hnd).2
      rcases List.mem_cons.1 he with rfl | he
      · rw [hl] at hlb
        exact Option.noConfusion hlb
      · exact (ih s hb2).2 hnd2 s1 hs1 e he b hlb
    | some v =>
      obtain ⟨b0, rfl⟩ := hb (name, fix) (List.mem_cons_self _ _) v hl
      refine ⟨(ih (setFix s fix b0) hb2).1, ?_⟩
      intro hnd s1 hs1 e he b hlb
      have hnd1 : fix ∉ tl.map Prod.snd := (List.nodup_cons.1 hnd).1
      have hnd2 : (tl.map Prod.snd).Nodup := (List.nodup_cons.1 hnd).2
      rcases List.mem_cons.1 he with rfl | he
      · rw [hl] at hlb
        have hbb : b0 = b := by injection hlb with h; injection h
        subst hbb
        obtain ⟨s2, h1, h2, _⟩ := configureLoop_state tl (setFix s fix b0) c
        have hs : s1 = s2 := by
          have hs1b : (configureLoop tl (some (setFix s fix b0)) c).k3dFixes = some s1 := hs1
          rw [h1] at hs1b
          injection hs1b with h
          exact h.symm
        rw [hs, h2 fix (fun e he hid => absurd (List.mem_map.2 ⟨e, he, hid⟩) hnd1)]
        simp [setFix]
      · exact (ih (setFix s fix b0) hb2).2 hnd2 s1 hs1 e he b hlb

theorem Run.eq_mk {α : Type} (r : Run α) (x : Except Fault α) (k : Option FixState)
    (h1 : r.result = x) (h2 : r.k3dFixes = k) : r = { result := x, k3dFixes := k } := by
  cases r
  subst h1 h2
  rfl

theorem supportedFixes_lookup_of_mem (n : String) (fix : K3DFixEnv)
    (h : (n, fix) ∈ supportedFixes) : supportedFixes.lookup n = some fix := by
  simp only [supportedFixes, List.mem_cons, Prod.mk.injEq, List.mem_nil_iff, or_false] at h
  rcases h with ⟨rfl, rfl⟩ | ⟨rfl, rfl⟩ | ⟨rfl, rfl⟩ <;> rfl

theorem configureLoop_nil_config (order : List (String × K3DFixEnv)) (k : Option FixState) :
    configureLoop order k [] = { result := Except.ok (), k3dFixes := k } := by
  induction order with
  | nil => rfl
  | cons hd tl ih =>
    obtain ⟨name, fix⟩ := hd
    unfold configureLoop
    simpa using ih

/-- What one call of `configureFixes` does to an allocated fix state, for any order in which
the registry is visited. -/
theorem configureFixes_run (order : List (String × K3DFixEnv)) (s : FixState) (c : Config)
    (ho : rangeOrder order) :
    ∃ s1, (configureFixes order (some s) c).k3dFixes = some s1 ∧
      (∀ id, (∀ n, supportedFixes.lookup n = some id → c.lookup n = none) → s1 id = s id) ∧
      (∃ ws : List (K3DFixEnv × Bool),
        s1 = ws.foldl (fun st w => setFix st w.1 w.2) s ∧
        ∀ w ∈ ws, ∃ n, supportedFixes.lookup n = some w.1 ∧
          c.lookup n = some (Value.bool w.2)) ∧
      ((∀ n ∈ supportedFixes.map Prod.fst, ∀ v, c.lookup n = some v → ∃ b, v = Value.bool b) →
        (configureFixes order (some s) c).result = Except.ok () ∧
        ∀ n fix b, supportedFixes.lookup n = some fix → c.lookup n = some (Value.bool b) →
          s1 fix = some b) := by
  obtain ⟨s1, h1, h2, ws, h3, h4⟩ := configureLoop_state order s c
  refine ⟨s1, h1, ?_, ⟨ws, h3, ?_⟩, ?_⟩
  · intro id hid
    apply h2
    intro e he heid
    have hm : (e.1, e.2) ∈ supportedFixes := (rangeOrder_mem order ho e).1 he
    exact hid e.1 (heid ▸ supportedFixes_lookup_of_mem _ _ hm)
  · intro w hw
    obtain ⟨e, he, hew, hl⟩ := h4 w hw
    have hm : (e.1, e.2) ∈ supportedFixes := (rangeOrder_mem order ho e).1 he
    exact ⟨e.1, hew ▸ supportedFixes_lookup_of_mem _ _ hm, hl⟩
  · intro hb
    have hb2 : ∀ e ∈ order, ∀ v, c.lookup e.1 = some v → ∃ b, v = Value.bool b := by
      intro e he
      have hm : e ∈ supportedFixes := (rangeOrder_mem order ho e).1 he
      exact hb e.1 (List.mem_map_of_mem _ hm)
    obtain ⟨h5, h6⟩ := configureLoop_bool order s c hb2
    refine ⟨h5, ?_⟩
    intro n fix b hn hl
    have hm : (n, fix) ∈ order :=
      (rangeOrder_mem order ho _).2 (mem_of_lookup_eq_some _ _ _ hn)
    exact h6 (rangeOrder_nodup_ids order ho) s1 h1 (n, fix) hm b hl

/-! ## Entries written and entries left alone -/

/-- C4: for a fix state `s` and a configuration `c` with boolean values, `configureFixes`
ends without a fault and, for each name `n` of `supportedFixes` for which `c` supplies a
boolean `b`, the entry of the identifier `supportedFixes[n]` is `b` afterwards. After
applying cgroupv2 = true, dns = false, mounts = true the entries of `EnvFixCgroupV2`,
`EnvFixDNS` and `EnvFixMounts` are true, false and true. -/
theorem configureFixes_sets_supplied_entries (order : List (String × K3DFixEnv))
    (s : FixState) (c : Config) (ho : rangeOrder order) (hc : boolValued c) :
    (∃ s1, configureFixes order (some s) c =
        { result := Except.ok (), k3dFixes := some s1 } ∧
      ∀ n fix b, supportedFixes.lookup n = some fix → c.lookup n = some (Value.bool b) →
        s1 fix = some b) ∧
    (∃ s1, configureFixes order (some s)
          [("cgroupv2", Value.bool true), ("dns", Value.bool false),
           ("mounts", Value.bool true)] =
        { result := Except.ok (), k3dFixes := some s1 } ∧
      s1 EnvFixCgroupV2 = some true ∧ s1 EnvFixDNS = some false ∧
      s1 EnvFixMounts = some true) := by
  have gen : ∀ c0 : Config, boolValued c0 →
      ∃ s1, configureFixes order (some s) c0 =
          { result := Except.ok (), k3dFixes := some s1 } ∧
        ∀ n fix b, supportedFixes.lookup n = some fix →
          c0.lookup n = some (Value.bool b) → s1 fix = some b := by
    intro c0 hc0
    obtain ⟨s1, h1, _, _, h4⟩ := configureFixes_run order s c0 ho
    obtain ⟨h5, h6⟩ := h4 (fun n _ v hv => boolValued_lookup c0 hc0 n v hv)
    exact ⟨s1, Run.eq_mk _ _ _ h5 h1, h6⟩
  refine ⟨gen c hc, ?_⟩
  obtain ⟨s1, h1, h2⟩ := gen [("cgroupv2", Value.bool true), ("dns", Value.bool false),
    ("mounts", Value.bool true)] (by decide)
  exact ⟨s1, h1, h2 "cgroupv2" _ true rfl rfl, h2 "dns" _ false rfl rfl,
    h2 "mounts" _ true rfl rfl⟩

/-- C4, at an instance: the registry visited in another order than it is written, a state
with no entry, and a configuration with a supported and an unsupported key. -/
theorem configureFixes_sets_supplied_entries_witness :
    rangeOrder [("mounts", EnvFixMounts), ("cgroupv2", EnvFixCgroupV2), ("dns", EnvFixDNS)] ∧
    boolValued [("dns", Value.bool false), ("bogus", Value.bool true)] ∧
    ∃ s1, configureFixes
        [("mounts", EnvFixMounts), ("cgroupv2", EnvFixCgroupV2), ("dns", EnvFixDNS)]
        (some (fun _ => none)) [("dns", Value.bool false), ("bogus", Value.bool true)] =
        { result := Except.ok (), k3dFixes := some s1 } ∧
      s1 EnvFixDNS = some false := by
  have ho : rangeOrder
      [("mounts", EnvFixMounts), ("cgroupv2", EnvFixCgroupV2), ("dns", EnvFixDNS)] := by
    decide
  refine ⟨ho, by decide, ?_⟩
  obtain ⟨⟨s1, h1, h2⟩, _⟩ := configureFixes_sets_supplied_entries
    [("mounts", EnvFixMounts), ("cgroupv2", EnvFixCgroupV2), ("dns", EnvFixDNS)]
    (fun _ => none) [("dns", Value.bool false), ("bogus", Value.bool true)] ho (by decide)
  exact ⟨s1, h1, h2 "dns" _ false rfl rfl⟩

/-- C5: for a fix state `s` and any configuration `c`, `configureFixes` leaves unchanged
(same presence, same value) every entry whose identifier is not `supportedFixes[n]` for a
key `n` of `c`. The empty configuration changes no entry, and applying cgroupv2 = true
leaves the entries of `EnvFixDNS`, `EnvFixMounts` and of every identifier other than
`EnvFixCgroupV2` as they were. -/
theorem configureFixes_leaves_other_entries (order : List (String × K3DFixEnv))
    (s : FixState) (c : Config) (ho : rangeOrder order) :
    (∃ s1, (configureFixes order (some s) c).k3dFixes = some s1 ∧
      ∀ id, (¬ ∃ n ∈ keys c, supportedFixes.lookup n = some id) → s1 id = s id) ∧
    configureFixes order (some s) [] = { result := Except.ok (), k3dFixes := some s } ∧
    (∃ s1, configureFixes order (some s) [("cgroupv2", Value.bool true)] =
        { result := Except.ok (), k3dFixes := some s1 } ∧
      s1 EnvFixDNS = s EnvFixDNS ∧ s1 EnvFixMounts = s EnvFixMounts ∧
      ∀ id, id ≠ EnvFixCgroupV2 → s1 id = s id) := by
  have gen : ∀ c0 : Config,
      ∃ s1, (configureFixes order (some s) c0).k3dFixes = some s1 ∧
        ∀ id, (¬ ∃ n ∈ keys c0, supportedFixes.lookup n = some id) → s1 id = s id := by
    intro c0
    obtain ⟨s1, h1, h2, _⟩ := configureFixes_run order s c0 ho
    refine ⟨s1, h1, ?_⟩
    intro id hid
    apply h2
    intro n hn
    by_contra hne
    exact hid ⟨n, by_contra (fun hk => hne ((lookup_eq_none_iff_not_key c0 n).2 hk)), hn⟩
  refine ⟨gen c, configureLoop_nil_config order (some s), ?_⟩
  obtain ⟨s1, h1, h2⟩ := gen [("cgroupv2", Value.bool true)]
  obtain ⟨s2, h3, _, _, h4⟩ :=
    configureFixes_run order s [("cgroupv2", Value.bool true)] ho
  have hs : s2 = s1 := by
    rw [h1] at h3
    injection h3 with h
    exact h.symm
  have hres := (h4 (fun n _ v hv =>
    boolValued_lookup [("cgroupv2", Value.bool true)] (by decide) n v hv)).1
  have hframe : ∀ id, id ≠ EnvFixCgroupV2 → s1 id = s id := by
    intro id hid
    apply h2
    rintro ⟨n, hn, hl⟩
    have hn2 : n = "cgroupv2" := by simpa [keys] using hn
    subst hn2
    have hl2 : some EnvFixCgroupV2 = some id := hl
    injection hl2 with h
    exact hid h.symm
  exact ⟨s1, Run.eq_mk _ _ _ hres h1, hframe _ (by decide), hframe _ (by decide), hframe⟩

/-- C5, at an instance: with dns = true applied to a state that holds an entry for
`EnvFixMounts` and one for an identifier outside the registry, both entries stay. -/
theorem configureFixes_leaves_other_entries_witness :
    rangeOrder supportedFixes ∧
    ∃ s1, (configureFixes supportedFixes
        (some (fun id => if id = EnvFixMounts then some true
          else if id = "K3D_FIX_OTHER" then some false else none))
        [("dns", Value.bool true), ("bogus", Value.str "x")]).k3dFixes = some s1 ∧
      s1 EnvFixMounts = some true ∧ s1 "K3D_FIX_OTHER" = some false ∧
      s1 EnvFixCgroupV2 = none := by
  refine ⟨by decide, ?_⟩
  obtain ⟨⟨s1, h1, h2⟩, _⟩ := configureFixes_leaves_other_entries supportedFixes
    (fun id => if id = EnvFixMounts then some true
      else if id = "K3D_FIX_OTHER" then some false else none)
    [("dns", Value.bool true), ("bogus", Value.str "x")] (by decide)
  have hk : ∀ id, id ≠ EnvFixDNS →
      ¬ ∃ n ∈ keys [("dns", Value.bool true), ("bogus", Value.str "x")],
        supportedFixes.lookup n = some id := by
    rintro id hid ⟨n, hn, hl⟩
    have hn2 : n = "dns" ∨ n = "bogus" := by simpa [keys] using hn
    rcases hn2 with rfl | rfl
    · have hl2 : some EnvFixDNS = some id := hl
      injection hl2 with h
      exact hid h.symm
    · have hl2 : (none : Option K3DFixEnv) = some id := hl
      exact Option.noConfusion hl2
  refine ⟨s1, h1, ?_, ?_, ?_⟩
  · rw [h2 _ (hk _ (by decide))]; rfl
  · rw [h2 _ (hk _ (by decide))]; rfl
  · rw [h2 _ (hk _ (by decide))]; rfl

/-! ## The configure step does not validate -/

theorem isBool_eq_true (v : Value) (h : isBool v = true) : ∃ b, v = Value.bool b := by
  cases v with
  | bool b => exact ⟨b, rfl⟩
  | str x => simp [isBool] at h
  | int x => simp [isBool] at h
  | null => simp [isBool] at h

theorem boolAtSupported_lookup (c : Config) (hc : boolAtSupported c) (n : String)
    (hn : n ∈ supportedFixes.map Prod.fst) (v : Value) (h : c.lookup n = some v) :
    ∃ b, v = Value.bool b :=
  isBool_eq_true v (hc (n, v) (mem_of_lookup_eq_some c n v h) hn)

theorem lookup_restrictSupported (c : Config) (n : String)
    (hn : n ∈ supportedFixes.map Prod.fst) : (restrictSupported c).lookup n = c.lookup n := by
  induction c with
  | nil => rfl
  | cons hd tl ih =>
    obtain ⟨a, v⟩ := hd
    unfold restrictSupported at ih ⊢
    by_cases ha : a ∈ supportedFixes.map Prod.fst
    · rw [List.filter_cons_of_pos (by simpa using ha)]
      by_cases hna : n = a
      · subst hna; simp [List.lookup]
      · have hb : (n == a) = false := by simpa using hna
        simp only [List.lookup, hb]
        exact ih
    · rw [List.filter_cons_of_neg (by simpa using ha)]
      have hna : n ≠ a := fun h => ha (h ▸ hn)
      have hb : (n == a) = false := by simpa using hna
      simp only [List.lookup, hb]
      exact ih

theorem configureFixes_restrictSupported (order : List (String × K3DFixEnv))
    (k : Option FixState) (c : Config) (ho : rangeOrder order) :
    configureFixes order k c = configureFixes order k (restrictSupported c) := by
  apply configureLoop_congr
  intro e he
  have hm : e ∈ supportedFixes := (rangeOrder_mem order ho e).1 he
  exact (lookup_restrictSupported c e.1 (List.mem_map_of_mem _ hm)).symm

theorem configure_of_set (version : String) (order : List (String × K3DFixEnv))
    (d : ResourceData) (k : Option FixState) (c : Config) (k1 : Option FixState)
    (hd : d.GetOk "fixes" = (Raw.map c, true))
    (h : configureFixes order k c = { result := Except.ok (), k3dFixes := k1 }) :
    configure version order d k = { result := Except.ok (some {}, []), k3dFixes := k1 } := by
  unfold configure
  rw [hd]
  simp only [assertMap]
  rw [h]

/-- C6, as stated, fails: with the keys "bogus" (unsupported, and reported by the validator)
and "dns" set in `fixes`, the configure closure ends without a fault, returns no diagnostics,
and has changed the entry of `EnvFixDNS`, which was absent, to true. -/
theorem configure_unsupported_key_counterexample :
    "bogus" ∈ keys [("bogus", Value.bool true), ("dns", Value.bool true)] ∧
    "bogus" ∉ supportedFixes.map Prod.fst ∧
    (∀ (N : Normalizer) (p : PathSlice),
      ValidateDiagFunc N (Raw.map [("bogus", Value.bool true), ("dns", Value.bool true)]) p =
        Except.ok [{ Severity := Severity.Error, Summary := "Invalid map key",
                     Detail := "Unsupported fix: bogus",
                     AttributePath := p.steps ++
                       [PathStep.IndexStep (StringVal N "bogus")] }]) ∧
    (configure "dev" supportedFixes
        (fixesSet [("bogus", Value.bool true), ("dns", Value.bool true)])
        (some (fun _ => none))).result = Except.ok (some {}, []) ∧
    readFix (configure "dev" supportedFixes
        (fixesSet [("bogus", Value.bool true), ("dns", Value.bool true)])
        (some (fun _ => none))).k3dFixes EnvFixDNS = some true ∧
    readFix (some (fun _ => none)) EnvFixDNS = none :=
  ⟨by decide, by decide,
   fun N p => validate_single N _ p "bogus" (by decide), rfl, rfl, rfl⟩

/-- C6, amended: the configure closure does not check the keys. For a fix state `s` and a
configuration `c` with boolean values that `GetOk` reports as set, also one with keys outside
`supportedFixes`, it ends without a fault, returns a client and no diagnostics, and leaves
the state that `configureFixes` yields for `c` restricted to the keys of `supportedFixes`:
the value of every supported key of `c` is written to its identifier and every entry whose
identifier is not `supportedFixes[n]` for a key `n` of `c` is unchanged. -/
theorem configure_applies_supported_keys (version : String)
    (order : List (String × K3DFixEnv)) (d : ResourceData) (s : FixState) (c : Config)
    (ho : rangeOrder order) (hd : d.GetOk "fixes" = (Raw.map c, true)) (hc : boolValued c) :
    ∃ s1, configure version order d (some s) =
        { result := Except.ok (some {}, []), k3dFixes := some s1 } ∧
      configureFixes order (some s) (restrictSupported c) =
        { result := Except.ok (), k3dFixes := some s1 } ∧
      (∀ n fix b, supportedFixes.lookup n = some fix → c.lookup n = some (Value.bool b) →
        s1 fix = some b) ∧
      (∀ id, (¬ ∃ n ∈ keys c, supportedFixes.lookup n = some id) → s1 id = s id) := by
  obtain ⟨s1, h1, h2, _, h4⟩ := configureFixes_run order s c ho
  obtain ⟨h5, h6⟩ := h4 (fun n _ v hv => boolValued_lookup c hc n v hv)
  have hrun : configureFixes order (some s) c =
      { result := Except.ok (), k3dFixes := some s1 } := Run.eq_mk _ _ _ h5 h1
  refine ⟨s1, configure_of_set version order d (some s) c (some s1) hd hrun, ?_, h6, ?_⟩
  · rw [← configureFixes_restrictSupported order (some s) c ho]
    exact hrun
  · intro id hid
    apply h2
    intro n hn
    by_contra hne
    exact hid ⟨n, by_contra (fun hk => hne ((lookup_eq_none_iff_not_key c n).2 hk)), hn⟩

/-- C6, amended, at an instance: "bogus" and "dns" set, the entry of `EnvFixDNS` is written. -/
theorem configure_applies_supported_keys_witness :
    ∃ s1, configure "dev" supportedFixes
        (fixesSet [("bogus", Value.bool true), ("dns", Value.bool true)])
        (some (fun _ => none)) =
        { result := Except.ok (some {}, []), k3dFixes := some s1 } ∧
      s1 EnvFixDNS = some true := by
  obtain ⟨s1, h1, _, h3, _⟩ := configure_applies_supported_keys "dev" supportedFixes
    (fixesSet [("bogus", Value.bool true), ("dns", Value.bool true)]) (fun _ => none)
    [("bogus", Value.bool true), ("dns", Value.bool true)] (by decide) rfl (by decide)
  exact ⟨s1, h1, h3 "dns" _ true rfl rfl⟩

/-! ## When `configureFixes` ends without a fault -/

/-- C7, as stated, fails: the configuration that sets "dns" to the string "yes" passes the
validator with no diagnostic, and `configureFixes` stops in the type assertion to `bool`,
the fix state being an allocated map. -/
theorem configureFixes_fault_counterexample :
    (∀ (N : Normalizer) (p : PathSlice),
      ValidateDiagFunc N (Raw.map [("dns", Value.str "yes")]) p = Except.ok []) ∧
    (configureFixes supportedFixes (some (fun _ => none)) [("dns", Value.str "yes")]).result =
      Except.error Fault.typeAssertion ∧
    (configureFixes [("dns", EnvFixDNS), ("mounts", EnvFixMounts),
        ("cgroupv2", EnvFixCgroupV2)] (some (fun _ => none))
        [("dns", Value.str "yes")]).result = Except.error Fault.typeAssertion :=
  ⟨fun N p => validate_ok N _ p, rfl, rfl⟩

/-- C7, amended: for a fix state `s`, an allocated map, and a configuration `c` whose values
for the keys of `supportedFixes` are booleans, whatever its other keys and their values,
`configureFixes` ends without a fault and leaves an allocated map: neither the type assertion
to `bool` nor the write into the map panics. -/
theorem configureFixes_completes (order : List (String × K3DFixEnv)) (s : FixState)
    (c : Config) (ho : rangeOrder order) (hc : boolAtSupported c) :
    ∃ s1, configureFixes order (some s) c =
      { result := Except.ok (), k3dFixes := some s1 } := by
  obtain ⟨s1, h1, _, _, h4⟩ := configureFixes_run order s c ho
  obtain ⟨h5, _⟩ := h4 (fun n hn v hv => boolAtSupported_lookup c hc n hn v hv)
  exact ⟨s1, Run.eq_mk _ _ _ h5 h1⟩

/-- C7, amended, at an instance: a boolean for "dns" and a string for an unsupported key. -/
theorem configureFixes_completes_witness :
    rangeOrder supportedFixes ∧
    boolAtSupported [("dns", Value.bool true), ("bogus", Value.str "x")] ∧
    ∃ s1, configureFixes supportedFixes (some (fun _ => none))
        [("dns", Value.bool true), ("bogus", Value.str "x")] =
      { result := Except.ok (), k3dFixes := some s1 } :=
  ⟨by decide, by decide,
   configureFixes_completes supportedFixes (fun _ => none)
     [("dns", Value.bool true), ("bogus", Value.str "x")] (by decide) (by decide)⟩

/-! ## Unsupported keys are skipped -/

/-- C8: for a fix state `s` and a configuration `c` with boolean values, `configureFixes`
on `c` and on `c` restricted to the keys of `supportedFixes` do the same (same result, same
state), without a fault; and the state it leaves is `s` after a sequence of writes each of
which goes to the identifier `supportedFixes[n]` of a name `n` of `supportedFixes` that is
a key of `c`, with the value `c` gives to `n`. -/
theorem configureFixes_skips_unsupported_keys (order : List (String × K3DFixEnv))
    (s : FixState) (c : Config) (ho : rangeOrder order) (hc : boolValued c) :
    configureFixes order (some s) c = configureFixes order (some s) (restrictSupported c) ∧
    ∃ s1, configureFixes order (some s) c =
        { result := Except.ok (), k3dFixes := some s1 } ∧
      ∃ ws : List (K3DFixEnv × Bool),
        s1 = ws.foldl (fun st w => setFix st w.1 w.2) s ∧
        ∀ w ∈ ws, ∃ n, n ∈ supportedFixes.map Prod.fst ∧ n ∈ keys c ∧
          supportedFixes.lookup n = some w.1 ∧ c.lookup n = some (Value.bool w.2) := by
  refine ⟨configureFixes_restrictSupported order (some s) c ho, ?_⟩
  obtain ⟨s1, h1, _, ⟨ws, h3, h3b⟩, h4⟩ := configureFixes_run order s c ho
  obtain ⟨h5, _⟩ := h4 (fun n _ v hv => boolValued_lookup c hc n v hv)
  refine ⟨s1, Run.eq_mk _ _ _ h5 h1, ws, h3, ?_⟩
  intro w hw
  obtain ⟨n, hn, hl⟩ := h3b w hw
  refine ⟨n, ?_, ?_, hn, hl⟩
  · exact (lookup_isSome_iff_key _ _).1 (by rw [hn]; rfl)
  · exact (lookup_isSome_iff_key _ _).1 (by rw [hl]; rfl)

/-- C8, at an instance: the unsupported key "bogus" next to "mounts". -/
theorem configureFixes_skips_unsupported_keys_witness :
    restrictSupported [("bogus", Value.bool true), ("mounts", Value.bool false)] =
      [("mounts", Value.bool false)] ∧
    configureFixes supportedFixes (some (fun _ => none))
        [("bogus", Value.bool true), ("mounts", Value.bool false)] =
      configureFixes supportedFixes (some (fun _ => none)) [("mounts", Value.bool false)] := by
  refine ⟨by decide, ?_⟩
  exact (configureFixes_skips_unsupported_keys supportedFixes (fun _ => none)
    [("bogus", Value.bool true), ("mounts", Value.bool false)] (by decide) (by decide)).1

/-! ## Repeated application -/

theorem supportedFixes_name_unique (n1 n2 : String) (fix : K3DFixEnv)
    (h1 : supportedFixes.lookup n1 = some fix) (h2 : supportedFixes.lookup n2 = some fix) :
    n1 = n2 := by
  have m1 := mem_of_lookup_eq_some _ _ _ h1
  have m2 := mem_of_lookup_eq_some _ _ _ h2
  simp only [supportedFixes, List.mem_cons, Prod.mk.injEq, List.mem_nil_iff, or_false] at m1 m2
  rcases m1 with ⟨rfl, rfl⟩ | ⟨rfl, rfl⟩ | ⟨rfl, rfl⟩ <;>
    rcases m2 with ⟨rfl, h⟩ | ⟨rfl, h⟩ | ⟨rfl, h⟩ <;>
    first
      | rfl
      | exact absurd h (by decide)

/-- Entry by entry, what `configureFixes` leaves on an allocated fix state when the
configuration has boolean values. -/
theorem configureFixes_entries (order : List (String × K3DFixEnv)) (s : FixState)
    (c : Config) (ho : rangeOrder order) (hc : boolValued c) :
    ∃ s1, configureFixes order (some s) c =
        { result := Except.ok (), k3dFixes := some s1 } ∧
      (∀ n fix b, supportedFixes.lookup n = some fix → c.lookup n = some (Value.bool b) →
        s1 fix = some b) ∧
      (∀ n fix, supportedFixes.lookup n = some fix → c.lookup n = none → s1 fix = s fix) ∧
      (∀ id, (∀ n, supportedFixes.lookup n ≠ some id) → s1 id = s id) := by
  obtain ⟨s1, h1, h2, _, h4⟩ := configureFixes_run order s c ho
  obtain ⟨h5, h6⟩ := h4 (fun n _ v hv => boolValued_lookup c hc n v hv)
  refine ⟨s1, Run.eq_mk _ _ _ h5 h1, h6, ?_, ?_⟩
  · intro n fix hn hl
    apply h2
    intro n2 hn2
    rw [supportedFixes_name_unique n2 n fix hn2 hn]
    exact hl
  · intro id hid
    apply h2
    intro n hn
    exact absurd hn (hid n)

/-- C9: `configureFixes` is idempotent. For a fix state `s` and a configuration `c` with
boolean values, a first run ends without a fault, and a second run on the state the first
one left, in whatever order it visits the registry, ends without a fault and leaves that
same state. -/
theorem configureFixes_idempotent (order1 order2 : List (String × K3DFixEnv))
    (s : FixState) (c : Config) (ho1 : rangeOrder order1) (ho2 : rangeOrder order2)
    (hc : boolValued c) :
    ∃ s1, configureFixes order1 (some s) c =
        { result := Except.ok (), k3dFixes := some s1 } ∧
      configureFixes order2 (configureFixes order1 (some s) c).k3dFixes c =
        { result := Except.ok (), k3dFixes := some s1 } := by
  obtain ⟨s1, h1, w1, _, _⟩ := configureFixes_entries order1 s c ho1 hc
  obtain ⟨s2, h2, w2, n2, f2⟩ := configureFixes_entries order2 s1 c ho2 hc
  refine ⟨s1, h1, ?_⟩
  rw [h1]
  have hs : s2 = s1 := by
    funext id
    by_cases hid : ∃ n, supportedFixes.lookup n = some id
    · obtain ⟨n, hn⟩ := hid
      cases hl : c.lookup n with
      | none => exact n2 n id hn hl
      | some v =>
        obtain ⟨b, rfl⟩ := boolValued_lookup c hc n v hl
        rw [w2 n id b hn hl, w1 n id b hn hl]
    · exact f2 id (fun n hn => hid ⟨n, hn⟩)
  show configureFixes order2 (some s1) c = _
  rw [h2, hs]

/-- C9, at an instance: the second run visits the registry in another order. -/
theorem configureFixes_idempotent_witness :
    ∃ s1, configureFixes supportedFixes (some (fun _ => some false))
        [("dns", Value.bool true), ("cgroupv2", Value.bool false)] =
        { result := Except.ok (), k3dFixes := some s1 } ∧
      configureFixes [("mounts", EnvFixMounts), ("dns", EnvFixDNS),
          ("cgroupv2", EnvFixCgroupV2)]
        (configureFixes supportedFixes (some (fun _ => some false))
          [("dns", Value.bool true), ("cgroupv2", Value.bool false)]).k3dFixes
        [("dns", Value.bool true), ("cgroupv2", Value.bool false)] =
        { result := Except.ok (), k3dFixes := some s1 } :=
  configureFixes_idempotent supportedFixes
    [("mounts", EnvFixMounts), ("dns", EnvFixDNS), ("cgroupv2", EnvFixCgroupV2)]
    (fun _ => some false) [("dns", Value.bool true), ("cgroupv2", Value.bool false)]
    (by decide) (by decide) (by decide)

/-! ## Two configurations in succession -/

theorem lookup_append_of_some {β : Type} (l1 l2 : List (String × β)) (k : String) (v : β)
    (h : l1.lookup k = some v) : (l1 ++ l2).lookup k = some v := by
  induction l1 with
  | nil => simp at h
  | cons hd tl ih =>
    obtain ⟨a, b⟩ := hd
    by_cases hka : k = a
    · subst hka
      simpa [List.lookup] using h
    · have hb : (k == a) = false := by simpa using hka
      simp only [List.lookup, hb, List.cons_append] at h ⊢
      exact ih h

theorem lookup_append_of_none {β : Type} (l1 l2 : List (String × β)) (k : String)
    (h : l1.lookup k = none) : (l1 ++ l2).lookup k = l2.lookup k := by
  induction l1 with
  | nil => rfl
  | cons hd tl ih =>
    obtain ⟨a, b⟩ := hd
    by_cases hka : k = a
    · subst hka
      simp [List.lookup] at h
    · have hb : (k == a) = false := by simpa using hka
      simp only [List.lookup, hb, List.cons_append] at h ⊢
      exact ih h

theorem lookup_filter_key (c : Config) (q : String → Bool) (n : String) (hq : q n = true) :
    (c.filter (fun kv => q kv.1)).lookup n = c.lookup n := by
  induction c with
  | nil => rfl
  | cons hd tl ih =>
    obtain ⟨a, v⟩ := hd
    by_cases ha : q a = true
    · rw [List.filter_cons_of_pos (p := fun kv : String × Value => q kv.1) ha]
      by_cases hna : n = a
      · subst hna; simp [List.lookup]
      · have hb : (n == a) = false := by simpa using hna
        simp only [List.lookup, hb]
        exact ih
    · rw [List.filter_cons_of_neg (p := fun kv : String × Value => q kv.1) ha]
      have hna : n ≠ a := fun h => ha (h ▸ hq)
      have hb : (n == a) = false := by simpa using hna
      simp only [List.lookup, hb]
      exact ih

theorem lookup_override_of_some (c1 c2 : Config) (n : String) (v : Value)
    (h : c2.lookup n = some v) : (override c1 c2).lookup n = some v :=
  lookup_append_of_some _ _ _ _ h

theorem lookup_override_of_none (c1 c2 : Config) (n : String) (h : c2.lookup n = none) :
    (override c1 c2).lookup n = c1.lookup n := by
  unfold override
  rw [lookup_append_of_none _ _ _ h]
  have hn : n ∉ keys c2 := (lookup_eq_none_iff_not_key c2 n).1 h
  exact lookup_filter_key c1 (fun k => decide (k ∉ keys c2)) n (by simpa using hn)

theorem boolValued_override (c1 c2 : Config) (h1 : boolValued c1) (h2 : boolValued c2) :
    boolValued (override c1 c2) := by
  intro kv hkv
  rcases List.mem_append.1 hkv with h | h
  · exact h2 kv h
  · exact h1 kv (List.mem_filter.1 h).1

/-- C10: the last writer wins. For a fix state `s` and configurations `c1`, `c2` with boolean
values, `configureFixes` of `c1` and then of `c2` both end without a fault, and for each name
`n` of `supportedFixes` the final entry of `supportedFixes[n]` is the value `c2` gives `n`
if it gives one, else the value `c1` gives `n` if it gives one, else its entry in `s`; the
final state is that of a single `configureFixes` of `c1` overridden by `c2`. -/
theorem configureFixes_last_writer_wins (order1 order2 order3 : List (String × K3DFixEnv))
    (s : FixState) (c1 c2 : Config) (ho1 : rangeOrder order1) (ho2 : rangeOrder order2)
    (ho3 : rangeOrder order3) (hc1 : boolValued c1) (hc2 : boolValued c2) :
    ∃ s1 s2, configureFixes order1 (some s) c1 =
        { result := Except.ok (), k3dFixes := some s1 } ∧
      configureFixes order2 (configureFixes order1 (some s) c1).k3dFixes c2 =
        { result := Except.ok (), k3dFixes := some s2 } ∧
      (∀ n fix, supportedFixes.lookup n = some fix →
        (∀ b, c2.lookup n = some (Value.bool b) → s2 fix = some b) ∧
        (c2.lookup n = none → ∀ b, c1.lookup n = some (Value.bool b) → s2 fix = some b) ∧
        (c2.lookup n = none → c1.lookup n = none → s2 fix = s fix)) ∧
      configureFixes order3 (some s) (override c1 c2) =
        { result := Except.ok (), k3dFixes := some s2 } := by
  obtain ⟨s1, h1, w1, n1, f1⟩ := configureFixes_entries order1 s c1 ho1 hc1
  obtain ⟨s2, h2, w2, n2, f2⟩ := configureFixes_entries order2 s1 c2 ho2 hc2
  obtain ⟨s3, h3, w3, n3, f3⟩ :=
    configureFixes_entries order3 s (override c1 c2) ho3 (boolValued_override c1 c2 hc1 hc2)
  have hs : s3 = s2 := by
    funext id
    by_cases hid : ∃ n, supportedFixes.lookup n = some id
    · obtain ⟨n, hn⟩ := hid
      cases hl2 : c2.lookup n with
      | some v =>
        obtain ⟨b, rfl⟩ := boolValued_lookup c2 hc2 n v hl2
        rw [w2 n id b hn hl2, w3 n id b hn (lookup_override_of_some c1 c2 n _ hl2)]
      | none =>
        have ho : (override c1 c2).lookup n = c1.lookup n := lookup_override_of_none c1 c2 n hl2
        rw [n2 n id hn hl2]
        cases hl1 : c1.lookup n with
        | some v =>
          obtain ⟨b, rfl⟩ := boolValued_lookup c1 hc1 n v hl1
          rw [w1 n id b hn hl1, w3 n id b hn (ho.trans hl1)]
        | none =>
          rw [n1 n id hn hl1, n3 n id hn (ho.trans hl1)]
    · have hno : ∀ n, supportedFixes.lookup n ≠ some id := fun n hn => hid ⟨n, hn⟩
      rw [f3 id hno, f2 id hno, f1 id hno]
  refine ⟨s1, s2, h1, ?_, ?_, ?_⟩
  · rw [h1]
    exact h2
  · intro n fix hn
    refine ⟨fun b hl2 => w2 n fix b hn hl2, ?_, ?_⟩
    · intro hl2 b hl1
      rw [n2 n fix hn hl2]
      exact w1 n fix b hn hl1
    · intro hl2 hl1
      rw [n2 n fix hn hl2]
      exact n1 n fix hn hl1
  · rw [h3, hs]

/-- C10, at an instance: `c2` overrides "dns", leaves "cgroupv2" to `c1` and "mounts" to the
initial state. -/
theorem configureFixes_last_writer_wins_witness :
    override [("dns", Value.bool true), ("cgroupv2", Value.bool true)]
        [("dns", Value.bool false)] =
      [("dns", Value.bool false), ("cgroupv2", Value.bool true)] ∧
    ∃ s2, configureFixes supportedFixes
        (configureFixes supportedFixes (some (fun _ => none))
          [("dns", Value.bool true), ("cgroupv2", Value.bool true)]).k3dFixes
        [("dns", Value.bool false)] =
        { result := Except.ok (), k3dFixes := some s2 } ∧
      s2 EnvFixDNS = some false ∧ s2 EnvFixCgroupV2 = some true ∧ s2 EnvFixMounts = none ∧
      configureFixes supportedFixes (some (fun _ => none))
          [("dns", Value.bool false), ("cgroupv2", Value.bool true)] =
        { result := Except.ok (), k3dFixes := some s2 } := by
  refine ⟨by decide, ?_⟩
  obtain ⟨s1, s2, _, h2, h3, h4⟩ := configureFixes_last_writer_wins supportedFixes
    supportedFixes supportedFixes (fun _ => none)
    [("dns", Value.bool true), ("cgroupv2", Value.bool true)] [("dns", Value.bool false)]
    (by decide) (by decide) (by decide) (by decide) (by decide)
  exact ⟨s2, h2, (h3 "dns" _ rfl).1 false rfl, (h3 "cgroupv2" _ rfl).2.1 rfl true rfl,
    (h3 "mounts" _ rfl).2.2 rfl rfl, h4⟩


/-! ## The validator as a function of the map -/

theorem validate_messages (N : Normalizer) (p : PathSlice) (U V : List String) :
    (V.map (reported N p U)).map message =
      V.map (fun k => (Severity.Error, "Invalid map key", "Unsupported fix: " ++ k)) := by
  rw [List.map_map]
  rfl

theorem reported_of_no_spare (N : Normalizer) (p : PathSlice) (U V : List String) (k : String)
    (hz : p.spare = 0) : reported N p U k = reported N p V k := by
  simp [reported, reportedPath, hz]

/-- C11, as stated, fails: the order of the diagnostics is the order in which the `range`
visits the keys of the map, which Go leaves unspecified; for the map with the unsupported
keys "a" and "b" the two visiting orders give the two diagnostics in opposite orders,
whatever the path. -/
theorem validate_order_counterexample :
    List.Perm [("a", Value.bool true), ("b", Value.bool true)]
      [("b", Value.bool true), ("a", Value.bool true)] ∧
    distinctKeys [("a", Value.bool true), ("b", Value.bool true)] ∧
    ∀ (N : Normalizer) (p : PathSlice), ∃ ds1 ds2,
      ValidateDiagFunc N (Raw.map [("a", Value.bool true), ("b", Value.bool true)]) p =
        Except.ok ds1 ∧
      ValidateDiagFunc N (Raw.map [("b", Value.bool true), ("a", Value.bool true)]) p =
        Except.ok ds2 ∧
      ds1.map (fun d => d.Detail) = ["Unsupported fix: a", "Unsupported fix: b"] ∧
      ds2.map (fun d => d.Detail) = ["Unsupported fix: b", "Unsupported fix: a"] ∧
      ds1 ≠ ds2 := by
  refine ⟨List.Perm.swap _ _ _, by decide, ?_⟩
  intro N p
  have h1 : ((unsupportedKeys [("a", Value.bool true), ("b", Value.bool true)]).map
      (reported N p (unsupportedKeys [("a", Value.bool true), ("b", Value.bool true)]))).map
      (fun d => d.Detail) = ["Unsupported fix: a", "Unsupported fix: b"] := rfl
  have h2 : ((unsupportedKeys [("b", Value.bool true), ("a", Value.bool true)]).map
      (reported N p (unsupportedKeys [("b", Value.bool true), ("a", Value.bool true)]))).map
      (fun d => d.Detail) = ["Unsupported fix: b", "Unsupported fix: a"] := rfl
  refine ⟨_, _, validate_ok N _ p, validate_ok N _ p, h1, h2, ?_⟩
  intro h
  have h3 := congrArg (List.map (fun d : Diagnostic => d.Detail)) h
  rw [h1, h2] at h3
  exact absurd h3 (by decide)

/-- C11, amended: the validator is total, and two calls on the same map and path, whatever
the orders in which they visit the map, return diagnostics with the same severity, summary
and detail up to order; on a path without spare capacity the diagnostics, attribute paths
included, are the same up to order; with at most one unsupported key the two results are
the same list. The call writes the slot behind the elements of the path exactly when the
path has spare capacity and the map has an unsupported key. -/
theorem validate_deterministic_up_to_order (N : Normalizer) (m1 m2 : Config) (p : PathSlice)
    (h : m1.Perm m2) :
    ∃ ds1 ds2, ValidateDiagFunc N (Raw.map m1) p = Except.ok ds1 ∧
      ValidateDiagFunc N (Raw.map m2) p = Except.ok ds2 ∧
      (ds1.map message).Perm (ds2.map message) ∧
      (p.spare = 0 → ds1.Perm ds2) ∧
      ((unsupportedKeys m1).length ≤ 1 → ds1 = ds2) ∧
      (validateSlot N (Raw.map m1) p = none ↔ p.spare = 0 ∨ unsupportedKeys m1 = []) := by
  have hu : (unsupportedKeys m1).Perm (unsupportedKeys m2) := unsupportedKeys_perm m1 m2 h
  refine ⟨_, _, validate_ok N m1 p, validate_ok N m2 p, ?_, ?_, ?_, ?_⟩
  · rw [validate_messages, validate_messages]
    exact List.Perm.map _ hu
  · intro hz
    have he : (unsupportedKeys m2).map (reported N p (unsupportedKeys m2)) =
        (unsupportedKeys m2).map (reported N p (unsupportedKeys m1)) :=
      List.map_congr_left (fun k _ => reported_of_no_spare N p _ _ k hz)
    rw [he]
    exact List.Perm.map _ hu
  · intro hl
    rw [← eq_of_perm_of_length_le_one _ _ hu hl]
  · rw [validateSlot_eq]
    by_cases hz : p.spare = 0
    · simp [hz]
    · simp [hz]

/-- C11, amended, at an instance: two visiting orders of a map with two unsupported keys, on
a path without spare capacity. -/
theorem validate_deterministic_up_to_order_witness :
    ∃ ds1 ds2,
      ValidateDiagFunc verbatim (Raw.map [("a", Value.bool true), ("dns", Value.bool true),
        ("b", Value.bool true)]) { steps := [PathStep.GetAttrStep "fixes"], spare := 0 } =
        Except.ok ds1 ∧
      ValidateDiagFunc verbatim (Raw.map [("b", Value.bool true), ("a", Value.bool true),
        ("dns", Value.bool true)]) { steps := [PathStep.GetAttrStep "fixes"], spare := 0 } =
        Except.ok ds2 ∧
      (ds1.map message).Perm (ds2.map message) ∧
      ds1.Perm ds2 := by
  obtain ⟨ds1, ds2, h1, h2, h3, h4, _⟩ := validate_deterministic_up_to_order verbatim
    [("a", Value.bool true), ("dns", Value.bool true), ("b", Value.bool true)]
    [("b", Value.bool true), ("a", Value.bool true), ("dns", Value.bool true)]
    { steps := [PathStep.GetAttrStep "fixes"], spare := 0 } (by decide)
  exact ⟨ds1, ds2, h1, h2, h3, h4 rfl⟩

/-! ## The order of the registry -/

/-- C12: the order in which `configureFixes` visits `supportedFixes` is irrelevant. For a fix
state `s`, a configuration `c` with boolean values and two orderings of the entries of
`supportedFixes`, the two runs end alike, without a fault and with the same final state;
the identifiers of the entries of `supportedFixes` are pairwise distinct. -/
theorem configureFixes_order_irrelevant (order1 order2 : List (String × K3DFixEnv))
    (s : FixState) (c : Config) (ho1 : rangeOrder order1) (ho2 : rangeOrder order2)
    (hc : boolValued c) :
    configureFixes order1 (some s) c = configureFixes order2 (some s) c ∧
    (∃ s1, configureFixes order1 (some s) c =
      { result := Except.ok (), k3dFixes := some s1 }) ∧
    (supportedFixes.map Prod.snd).Nodup := by
  obtain ⟨s1, h1, w1, n1, f1⟩ := configureFixes_entries order1 s c ho1 hc
  obtain ⟨s2, h2, w2, n2, f2⟩ := configureFixes_entries order2 s c ho2 hc
  have hs : s1 = s2 := by
    funext id
    by_cases hid : ∃ n, supportedFixes.lookup n = some id
    · obtain ⟨n, hn⟩ := hid
      cases hl : c.lookup n with
      | none => rw [n1 n id hn hl, n2 n id hn hl]
      | some v =>
        obtain ⟨b, rfl⟩ := boolValued_lookup c hc n v hl
        rw [w1 n id b hn hl, w2 n id b hn hl]
    · have hno : ∀ n, supportedFixes.lookup n ≠ some id := fun n hn => hid ⟨n, hn⟩
      rw [f1 id hno, f2 id hno]
  refine ⟨?_, ⟨s1, h1⟩, by decide⟩
  rw [h1, h2, hs]

/-- C12, at an instance: the written order and its reverse, all three names supplied. -/
theorem configureFixes_order_irrelevant_witness :
    configureFixes supportedFixes (some (fun _ => none))
        [("mounts", Value.bool true), ("dns", Value.bool false),
         ("cgroupv2", Value.bool true)] =
      configureFixes [("mounts", EnvFixMounts), ("dns", EnvFixDNS),
          ("cgroupv2", EnvFixCgroupV2)] (some (fun _ => none))
        [("mounts", Value.bool true), ("dns", Value.bool false),
         ("cgroupv2", Value.bool true)] :=
  (configureFixes_order_irrelevant supportedFixes
    [("mounts", EnvFixMounts), ("dns", EnvFixDNS), ("cgroupv2", EnvFixCgroupV2)]
    (fun _ => none)
    [("mounts", Value.bool true), ("dns", Value.bool false), ("cgroupv2", Value.bool true)]
    (by decide) (by decide) (by decide)).1

/-! ## The registry -/

/-- C13: `supportedFixes` has exactly three names, "cgroupv2", "dns" and "mounts", mapped to
`EnvFixCgroupV2`, `EnvFixDNS` and `EnvFixMounts`; two different names never have the same
identifier; and the lookup of any other string, such as the empty one or a name in another
case, finds nothing. -/
theorem supportedFixes_registry :
    supportedFixes.length = 3 ∧
    (supportedFixes.map Prod.fst).Nodup ∧
    supportedFixes.lookup "cgroupv2" = some EnvFixCgroupV2 ∧
    supportedFixes.lookup "dns" = some EnvFixDNS ∧
    supportedFixes.lookup "mounts" = some EnvFixMounts ∧
    (∀ n, supported n = true ↔ n = "cgroupv2" ∨ n = "dns" ∨ n = "mounts") ∧
    (∀ n1 n2 fix, supportedFixes.lookup n1 = some fix → supportedFixes.lookup n2 = some fix →
      n1 = n2) ∧
    (∀ n, n ≠ "cgroupv2" → n ≠ "dns" → n ≠ "mounts" → supportedFixes.lookup n = none) ∧
    supportedFixes.lookup "" = none ∧
    supportedFixes.lookup "DNS" = none ∧
    supportedFixes.lookup "CgroupV2" = none ∧
    supportedFixes.lookup "Mounts" = none := by
  refine ⟨rfl, by decide, rfl, rfl, rfl, ?_, supportedFixes_name_unique, ?_,
    rfl, rfl, rfl, rfl⟩
  · intro n
    unfold supported
    rw [lookup_isSome_iff_key, mem_supported_names]
  · intro n h1 h2 h3
    rw [lookup_eq_none_iff_not_key, mem_supported_names]
    rintro (h | h | h)
    · exact h1 h
    · exact h2 h
    · exact h3 h


/-! ## The validator looks at keys only -/

/-- C14, as stated, fails: on a path with spare capacity the attribute paths end in the
index step of the unsupported key visited last, so that two maps with the same keys "a"
and "b", visited in opposite orders, give different sets of diagnostics. -/
theorem validate_keys_only_counterexample :
    (∀ k, k ∈ keys [("a", Value.bool true), ("b", Value.bool true)] ↔
      k ∈ keys [("b", Value.bool true), ("a", Value.bool true)]) ∧
    ∀ N : Normalizer, ∃ ds1 ds2,
      ValidateDiagFunc N (Raw.map [("a", Value.bool true), ("b", Value.bool true)])
        { steps := [], spare := 1 } = Except.ok ds1 ∧
      ValidateDiagFunc N (Raw.map [("b", Value.bool true), ("a", Value.bool true)])
        { steps := [], spare := 1 } = Except.ok ds2 ∧
      ds1.map (fun d => d.AttributePath) =
        [[PathStep.IndexStep (StringVal N "b")], [PathStep.IndexStep (StringVal N "b")]] ∧
      ds2.map (fun d => d.AttributePath) =
        [[PathStep.IndexStep (StringVal N "a")], [PathStep.IndexStep (StringVal N "a")]] ∧
      ∃ d, d ∈ ds1 ∧ d ∉ ds2 := by
  constructor
  · intro k
    simp only [keys, List.map, List.mem_cons, List.mem_nil_iff, or_false]
    exact Or.comm
  · intro N
    have ha : N.NormalizeString "a" = "a" := N.ascii "a" (by decide)
    have hb : N.NormalizeString "b" = "b" := N.ascii "b" (by decide)
    refine ⟨_, _, rfl, rfl, rfl, rfl,
      { Severity := Severity.Error, Summary := "Invalid map key",
        Detail := "Unsupported fix: a",
        AttributePath := [PathStep.IndexStep (StringVal N "b")] }, ?_, ?_⟩
    · simp [readDiag, readPath]
    · simp [readDiag, readPath, StringVal, ha, hb]

/-- C14, amended: the validator inspects keys only. For a path `p` and two configuration
maps with the same set of keys, whatever their values, it returns diagnostics with the same
set of severities, summaries and details, the same set of diagnostics when `p` has no spare
capacity, and the same list when the keys are visited in the same order; every diagnostic
it returns is an invalid-key diagnostic of an unsupported key, so that no value, boolean or
not, is ever reported. -/
theorem validate_inspects_keys_only (N : Normalizer) (m1 m2 : Config) (p : PathSlice)
    (h : ∀ k, k ∈ keys m1 ↔ k ∈ keys m2) :
    ∃ ds1 ds2, ValidateDiagFunc N (Raw.map m1) p = Except.ok ds1 ∧
      ValidateDiagFunc N (Raw.map m2) p = Except.ok ds2 ∧
      (∀ t, t ∈ ds1.map message ↔ t ∈ ds2.map message) ∧
      (p.spare = 0 → ∀ d, d ∈ ds1 ↔ d ∈ ds2) ∧
      (keys m1 = keys m2 → ds1 = ds2) ∧
      (∀ d ∈ ds1, d.Severity = Severity.Error ∧ d.Summary = "Invalid map key" ∧
        ∃ k ∈ keys m1, k ∉ supportedFixes.map Prod.fst ∧
          d.Detail = "Unsupported fix: " ++ k) := by
  have hu : ∀ k, k ∈ unsupportedKeys m1 ↔ k ∈ unsupportedKeys m2 := by
    intro k
    rw [mem_unsupportedKeys, mem_unsupportedKeys, h k]
  refine ⟨_, _, validate_ok N m1 p, validate_ok N m2 p, ?_, ?_, ?_, ?_⟩
  · intro t
    rw [validate_messages, validate_messages]
    simp only [List.mem_map]
    constructor
    · rintro ⟨k, hk, rfl⟩
      exact ⟨k, (hu k).1 hk, rfl⟩
    · rintro ⟨k, hk, rfl⟩
      exact ⟨k, (hu k).2 hk, rfl⟩
  · intro hz d
    simp only [List.mem_map]
    constructor
    · rintro ⟨k, hk, rfl⟩
      exact ⟨k, (hu k).1 hk, reported_of_no_spare N p _ _ k hz⟩
    · rintro ⟨k, hk, rfl⟩
      exact ⟨k, (hu k).2 hk, reported_of_no_spare N p _ _ k hz⟩
  · intro hk
    have hue : unsupportedKeys m1 = unsupportedKeys m2 := by
      unfold unsupportedKeys
      rw [hk]
    rw [hue]
  · intro d hd
    obtain ⟨k, hk, rfl⟩ := List.mem_map.1 hd
    exact ⟨rfl, rfl, k, ((mem_unsupportedKeys m1 k).1 hk).1,
      ((mem_unsupportedKeys m1 k).1 hk).2, rfl⟩

/-- C14, amended, at an instance: the same two keys, in another order and with other
values, one of them a string given for "dns". -/
theorem validate_inspects_keys_only_witness :
    ∃ ds1 ds2,
      ValidateDiagFunc verbatim
        (Raw.map [("dns", Value.str "yes"), ("bogus", Value.bool true)])
        { steps := [], spare := 0 } = Except.ok ds1 ∧
      ValidateDiagFunc verbatim
        (Raw.map [("bogus", Value.int 3), ("dns", Value.bool false)])
        { steps := [], spare := 0 } = Except.ok ds2 ∧
      (∀ d, d ∈ ds1 ↔ d ∈ ds2) ∧
      ∀ d ∈ ds1, d.Detail ≠ "Unsupported fix: dns" := by
  obtain ⟨ds1, ds2, h1, h2, _, h4, _, h6⟩ := validate_inspects_keys_only verbatim
    [("dns", Value.str "yes"), ("bogus", Value.bool true)]
    [("bogus", Value.int 3), ("dns", Value.bool false)] { steps := [], spare := 0 }
    (by intro k; simp only [keys, List.map, List.mem_cons, List.mem_nil_iff, or_false]
        exact Or.comm)
  refine ⟨ds1, ds2, h1, h2, h4 rfl, ?_⟩
  intro d hd hdet
  obtain ⟨_, _, k, _, hns, hk⟩ := h6 d hd
  have hkd : k = "dns" := unsupported_detail_injective _ _ (hk.symm.trans hdet)
  exact hns (hkd ▸ by decide)

/-! ## The configure closure -/

theorem configure_unset (version : String) (order : List (String × K3DFixEnv))
    (d : ResourceData) (k : Option FixState) (h : (d.GetOk "fixes").2 = false) :
    configure version order d k = { result := Except.ok (some {}, []), k3dFixes := k } := by
  unfold configure
  cases hg : d.GetOk "fixes" with
  | mk l ok =>
    rw [hg] at h
    have hok : ok = false := h
    subst hok
    rfl

theorem configure_set (version : String) (order : List (String × K3DFixEnv))
    (d : ResourceData) (k : Option FixState) (c : Config)
    (hd : d.GetOk "fixes" = (Raw.map c, true)) :
    (configure version order d k).k3dFixes = (configureFixes order k c).k3dFixes ∧
    ((configureFixes order k c).result = Except.ok () →
      (configure version order d k).result = Except.ok (some {}, [])) ∧
    (∀ e, (configureFixes order k c).result = Except.error e →
      (configure version order d k).result = Except.error e) := by
  unfold configure
  rw [hd]
  simp only [assertMap]
  cases hr : configureFixes order k c with
  | mk res k1 =>
    cases res with
    | error e0 =>
      refine ⟨rfl, ?_, ?_⟩
      · intro h; exact Except.noConfusion h
      · intro e h
        have h2 : Except.error e0 = (Except.error e : Except Fault Unit) := h
        injection h2 with h3
        subst h3
        rfl
    | ok u =>
      refine ⟨rfl, fun _ => rfl, ?_⟩
      intro e h
      exact Except.noConfusion h

/-- C15: the configure closure never reports diagnostics and touches the fix state only when
"fixes" is set. For a fix state `s`: when `GetOk` reports not-set, the closure leaves `s`
unchanged; when it reports as set a map `c`, with boolean values as the schema of "fixes"
has it, the state it leaves is exactly that of `configureFixes` on `c`; in both cases it
returns a non-nil client and nil diagnostics. -/
theorem configure_touches_state_only_when_set (version : String)
    (order : List (String × K3DFixEnv)) (s : FixState) (d : ResourceData) (c : Config)
    (ho : rangeOrder order) (hd : (d.GetOk "fixes").2 = true → fixesTyped d c) :
    ((d.GetOk "fixes").2 = false →
      configure version order d (some s) =
        { result := Except.ok (some {}, []), k3dFixes := some s }) ∧
    ((d.GetOk "fixes").2 = true →
      configure version order d (some s) =
        { result := Except.ok (some {}, []),
          k3dFixes := (configureFixes order (some s) c).k3dFixes } ∧
      (configureFixes order (some s) c).result = Except.ok ()) := by
  refine ⟨fun h => configure_unset version order d (some s) h, ?_⟩
  intro hset
  obtain ⟨hmap, hc⟩ := hd hset
  have hg : d.GetOk "fixes" = (Raw.map c, true) := by
    cases hgo : d.GetOk "fixes" with
    | mk l ok =>
      rw [hgo] at hmap hset
      simp only at hmap hset
      rw [hmap, hset]
  obtain ⟨h1, h2, _⟩ := configure_set version order d (some s) c hg
  obtain ⟨_, _, _, _, h4⟩ := configureFixes_run order s c ho
  have hres : (configureFixes order (some s) c).result = Except.ok () :=
    (h4 (fun n _ v hv => boolValued_lookup c hc n v hv)).1
  exact ⟨Run.eq_mk _ _ _ (h2 hres) h1, hres⟩

/-- C15, at two instances: "fixes" not set, and "fixes" set to dns = true. -/
theorem configure_touches_state_only_when_set_witness :
    configure "dev" supportedFixes
        { GetOk := fun _ => (Raw.scalar Value.null, false) } (some (fun _ => some true)) =
      { result := Except.ok (some {}, []), k3dFixes := some (fun _ => some true) } ∧
    configure "dev" supportedFixes (fixesSet [("dns", Value.bool true)])
        (some (fun _ => none)) =
      { result := Except.ok (some {}, []),
        k3dFixes := (configureFixes supportedFixes (some (fun _ => none))
          [("dns", Value.bool true)]).k3dFixes } ∧
    readFix (configure "dev" supportedFixes (fixesSet [("dns", Value.bool true)])
        (some (fun _ => none))).k3dFixes EnvFixDNS = some true := by
  refine ⟨?_, ?_, rfl⟩
  · exact (configure_touches_state_only_when_set "dev" supportedFixes (fun _ => some true)
      { GetOk := fun _ => (Raw.scalar Value.null, false) } [] (by decide)
      (fun h => Bool.noConfusion h)).1 rfl
  · exact ((configure_touches_state_only_when_set "dev" supportedFixes (fun _ => none)
      (fixesSet [("dns", Value.bool true)]) [("dns", Value.bool true)] (by decide)
      (fun _ => ⟨rfl, by decide⟩)).2 rfl).1
end K3dProvider
